import Mathlib

/-!
Verification development for the visionanizador-dv360 aggregation core.

The JavaScript sources (tasks/generateVisionJson.js, tasks/extractCategories.js,
tasks/inferIabScoring.js, tasks/inferAgeGender.js and the utils/config modules)
are shallowly embedded below.  Machine floats are modelled by exact rationals
(the specification states its aggregation invariants over exact arithmetic),
JavaScript `Map`s by association lists that preserve insertion order, and each
streaming pass by a fold over its (pre-split) data rows.  Fallible parsing is
modelled with `Option`.
-/

namespace Vision

/-- JavaScript whitespace (the `\s` class, `String.prototype.trim`, and the
whitespace stripped by `Number`), restricted to the ASCII range used by the
CSV data. -/
def isJsSpace (c : Char) : Bool :=
  c == ' ' || c == '\t' || c == '\n' || c == '\r' || c == '\x0b' || c == '\x0c'

/-- Model of JavaScript `String.prototype.trim` on ASCII data. -/
def trimStr (s : String) : String :=
  ⟨((s.data.dropWhile isJsSpace).reverse.dropWhile isJsSpace).reverse⟩

/-- Model of JavaScript `String.prototype.toLowerCase` on ASCII data. -/
def lowerStr (s : String) : String :=
  ⟨s.data.map Char.toLower⟩

/-- Model of `String(x).replace(/,/g, '')`: removes every comma. -/
def stripCommas (s : String) : String :=
  ⟨s.data.filter (fun c => c ≠ ',')⟩

/-- Model of `s.replace(/\s+/g, '')`: removes every whitespace character. -/
def stripSpaces (s : String) : String :=
  ⟨s.data.filter (fun c => !(isJsSpace c))⟩

/-- `needle` is a prefix of `hay` (over characters). -/
def prefixOfList : List Char → List Char → Bool
  | [], _ => true
  | _ :: _, [] => false
  | a :: as, b :: bs => a == b && prefixOfList as bs

/-- `needle` occurs contiguously inside `hay`. -/
def infixOfList (needle hay : List Char) : Bool :=
  match hay with
  | [] => prefixOfList needle []
  | _ :: rest => prefixOfList needle hay || infixOfList needle rest

/-- Model of JavaScript `hay.includes(sub)` (substring test). -/
def includesStr (hay sub : String) : Bool :=
  infixOfList sub.data hay.data

/-- Numeric value of a list of decimal digit characters (most significant
first), as used after a `\d+` regex group or by `parseInt`. -/
def natOfDigits (l : List Char) : ℕ :=
  l.foldl (fun a c => 10 * a + (c.toNat - 48)) 0

/-- Exponent suffix of a decimal numeral: sign and digits after `e`/`E`. -/
def parseSignedExp : List Char → Option ℤ
  | '+' :: ds => if !ds.isEmpty && ds.all Char.isDigit then some (natOfDigits ds) else none
  | '-' :: ds => if !ds.isEmpty && ds.all Char.isDigit then some (-(natOfDigits ds : ℤ)) else none
  | ds => if !ds.isEmpty && ds.all Char.isDigit then some (natOfDigits ds) else none

/-- Optional `e`/`E` exponent part closing a decimal numeral; anything else
left over makes the numeral invalid. -/
def parseExpPart : List Char → Option ℤ
  | [] => some 0
  | 'e' :: rest => parseSignedExp rest
  | 'E' :: rest => parseSignedExp rest
  | _ => none

/-- Syntactic shape of a finite decimal numeral accepted by `Number`:
sign, integer digits, fraction digits, exponent. -/
structure DecNum where
  neg : Bool
  intPart : List Char
  fracPart : List Char
  exp : ℤ
deriving DecidableEq

/-- Unsigned decimal numeral `digits [. digits] [exponent]` with at least one
digit; returns the digit groups and exponent. -/
def parseBody? (l : List Char) : Option (List Char × List Char × ℤ) :=
  let ip := l.takeWhile Char.isDigit
  let r1 := l.dropWhile Char.isDigit
  match r1 with
  | '.' :: r2 =>
    let fp := r2.takeWhile Char.isDigit
    let r3 := r2.dropWhile Char.isDigit
    if ip.isEmpty && fp.isEmpty then none
    else (parseExpPart r3).map (fun e => (ip, fp, e))
  | _ =>
    if ip.isEmpty then none
    else (parseExpPart r1).map (fun e => (ip, [], e))

/-- Syntactic part of the JavaScript `Number(string)` conversion restricted to
finite decimal numeral forms: whitespace is trimmed, the empty string parses
as the numeral 0 as in JavaScript, and `none` stands for a `NaN`/non-finite
result (every caller in the sources treats those as malformed).
Hexadecimal/octal and `Infinity` literals, which never occur in this data,
are not modelled. -/
def parseDec? (s : String) : Option DecNum :=
  let l := ((s.data.dropWhile isJsSpace).reverse.dropWhile isJsSpace).reverse
  match l with
  | [] => some ⟨false, [], [], 0⟩
  | '+' :: rest => (parseBody? rest).map (fun p => ⟨false, p.1, p.2.1, p.2.2⟩)
  | '-' :: rest => (parseBody? rest).map (fun p => ⟨true, p.1, p.2.1, p.2.2⟩)
  | _ => (parseBody? l).map (fun p => ⟨false, p.1, p.2.1, p.2.2⟩)

/-- Exact rational value of a parsed decimal numeral. -/
def evalDecNum (d : DecNum) : ℚ :=
  (if d.neg then -1 else 1) *
    ((natOfDigits d.intPart : ℚ) + (natOfDigits d.fracPart : ℚ) / (10 : ℚ) ^ d.fracPart.length) *
    (10 : ℚ) ^ d.exp

/-- Model of the JavaScript `Number(string)` conversion (see `parseDec?`). -/
def jsNumber? (s : String) : Option ℚ :=
  (parseDec? s).map evalDecNum

/-- generateVisionJson.js `parseNumber`: strip commas, trim, convert with
`Number`, and coerce a non-finite result to 0. -/
def parseNumber (x : String) : ℚ :=
  match jsNumber? (trimStr (stripCommas x)) with
  | some n => n
  | none => 0

/-- generateVisionJson.js `round4`: round to 4 decimal places
(`Number(x.toFixed(4))`, ties toward +∞ per the ECMAScript `toFixed` rule). -/
def round4 (x : ℚ) : ℚ :=
  (round (x * 10000) : ℤ) / 10000

/-- generateVisionJson.js `pct4`: percentage of `num` over `den` rounded to 4
decimals, 0 when the denominator is not positive. -/
def pct4 (num den : ℚ) : ℚ :=
  if den > 0 then round4 (num / den * 100) else 0

/-- generateVisionJson.js `productIdFromInsertionOrder`: the prefix of the
Insertion Order string before its first underscore (the whole string when no
underscore occurs). -/
def productIdFromInsertionOrder (io : String) : String :=
  ⟨io.data.takeWhile (fun c => c ≠ '_')⟩

/-! ### Insertion-ordered association lists (JavaScript `Map` model) -/

/-- `m.set(k, f (m.get(k) ?? d))` on a JavaScript `Map`: update the entry for
`k` in place, or append a fresh entry seeded from default `d`. -/
def updA {κ α : Type} [DecidableEq κ] (m : List (κ × α)) (k : κ) (d : α) (f : α → α) :
    List (κ × α) :=
  match m with
  | [] => [(k, f d)]
  | (k', v) :: rest => if k' = k then (k', f v) :: rest else (k', v) :: updA rest k d f

/-- `m.get(k) ?? d` on a JavaScript `Map`. -/
def lookupA {κ α : Type} [DecidableEq κ] (m : List (κ × α)) (k : κ) (d : α) : α :=
  match m with
  | [] => d
  | (k', v) :: rest => if k' = k then v else lookupA rest k d

theorem lookupA_updA_self {κ α : Type} [DecidableEq κ]
    (m : List (κ × α)) (k : κ) (d d' : α) (f : α → α) :
    lookupA (updA m k d f) k d' = f (lookupA m k d) := by
  induction m with
  | nil => simp [updA, lookupA]
  | cons hd tl ih =>
    obtain ⟨k', v⟩ := hd
    by_cases h : k' = k <;> simp [updA, lookupA, h, ih]

theorem lookupA_updA_ne {κ α : Type} [DecidableEq κ]
    (m : List (κ × α)) (k k₂ : κ) (d d' : α) (f : α → α) (hne : k₂ ≠ k) :
    lookupA (updA m k d f) k₂ d' = lookupA m k₂ d' := by
  induction m with
  | nil =>
    simp only [updA, lookupA]
    rw [if_neg (fun h => hne h.symm)]
  | cons hd tl ih =>
    obtain ⟨k', v⟩ := hd
    by_cases h : k' = k
    · subst h
      simp only [updA, if_pos rfl, lookupA]
      rw [if_neg (fun h => hne h.symm), if_neg (fun h => hne h.symm)]
    · simp only [updA, if_neg h, lookupA]
      by_cases h2 : k' = k₂ <;> simp [h2, ih]

/-! ### Device bucketizer (generateVisionJson.js `normalizeDeviceType`,
`ingestDevices`) -/

/-- generateVisionJson.js `normalizeDeviceType`: keyword heuristics over the
lower-cased, trimmed label; unmatched labels pass through unchanged. -/
def normalizeDeviceType (dtRaw : String) : String :=
  let s := trimStr (lowerStr dtRaw)
  if s = "" then "Other"
  else if includesStr s "ctv" || (includesStr s "connected" && includesStr s "tv") then "CTV"
  else if includesStr s "tablet" then "Tablet"
  else if includesStr (stripSpaces s) "smartphone" || (includesStr s "smart" && includesStr s "phone") then "Smart Phone"
  else if s = "mobile" then "Mobile"
  else if includesStr s "desktop" then "Desktop"
  else if includesStr s "phone" then "Smart Phone"
  else dtRaw

/-- State of the `ingestDevices` scan: `perProductImps` (product → running
impression total) and `perProductDeviceImps` (product → device bucket →
impressions), both in first-seen insertion order. -/
structure DevState where
  total : List (String × ℚ)
  byDev : List (String × List (String × ℚ))
deriving DecidableEq

def DevState.empty : DevState := ⟨[], []⟩

/-- Column access `cols[i]`: a missing cell behaves like the empty string,
as the source's `String(x || '')` / `parseNumber(undefined)` / array-join
coercions make it. -/
def colD (cols : List String) (i : ℕ) : String :=
  (cols.get? i).getD ""

/-- One data row of the `ingestDevices` loop (generateVisionJson.js lines
180-196), with the default column mapping insertionOrder=0, deviceType=2,
impressions=3.  Rows with an empty product id or impressions that parse to 0
are skipped; Tablet and Smart Phone merge into Mobile before accumulation. -/
def ingestDevicesStep (s : DevState) (cols : List String) : DevState :=
  let pid := productIdFromInsertionOrder (colD cols 0)
  let imps := parseNumber (colD cols 3)
  if pid = "" ∨ imps = 0 then s
  else
    let bucket0 := normalizeDeviceType (colD cols 2)
    let bucket := if bucket0 = "Tablet" ∨ bucket0 = "Smart Phone" then "Mobile" else bucket0
    { total := updA s.total pid 0 (fun t => t + imps)
      byDev := updA s.byDev pid [] (fun m => updA m bucket 0 (fun v => v + imps)) }

/-- Index of the strictly largest percentage, first occurrence winning ties
(generateVisionJson.js lines 211-212). -/
def maxIdxOf (raw : List (String × ℚ)) : ℕ :=
  (List.range raw.length).foldl
    (fun m i => if (raw.getD i ("", 0)).2 > (raw.getD m ("", 0)).2 then i else m) 0

/-- Add `v` to the percentage stored at position `i` (the
`keep[...].pct += smallSum` mutation). -/
def addAt (l : List (String × ℚ)) (i : ℕ) (v : ℚ) : List (String × ℚ) :=
  match l, i with
  | [], _ => []
  | x :: rest, 0 => (x.1, x.2 + v) :: rest
  | x :: rest, n + 1 => x :: addAt rest n v

/-- The percentage/roll-up computation of `ingestDevices` for one product
(generateVisionJson.js lines 203-229): raw percentages in bucket first-seen
order, the max bucket by `maxIdxOf`, buckets below `minPct` (other than the
max) summed into `smallSum` and dropped, `smallSum` added at the index
`maxIdx >= keep.length ? keep.length - 1 : keep.findIndex(dev = raw[maxIdx].dev)`,
and rounding to 4 decimals last. -/
def rollUp (devMap : List (String × ℚ)) (total minPct : ℚ) : List (String × ℚ) :=
  let raw := devMap.map (fun p => (p.1, p.2 / total * 100))
  if raw.isEmpty then []
  else
    let maxIdx := maxIdxOf raw
    let idxd := raw.enum
    let smallSum := ((idxd.filter (fun p => p.2.2 < minPct ∧ p.1 ≠ maxIdx)).map (fun p => p.2.2)).sum
    let keep := (idxd.filter (fun p => ¬(p.2.2 < minPct ∧ p.1 ≠ maxIdx))).map (fun p => p.2)
    let keep2 :=
      if smallSum > 0 then
        let tgt := if maxIdx ≥ keep.length then keep.length - 1
                   else keep.findIdx (fun k => k.1 = (raw.getD maxIdx ("", 0)).1)
        addAt keep tgt smallSum
      else keep
    keep2.map (fun k => (k.1, round4 k.2))

/-- Full `ingestDevices` result: fold the rows, then per product compute the
roll-up (empty output when the total is not positive). -/
def byDevicesOf (rows : List (List String)) (minPct : ℚ) :
    List (String × List (String × ℚ)) :=
  let s := rows.foldl ingestDevicesStep DevState.empty
  s.byDev.map (fun p =>
    (p.1, let total := lookupA s.total p.1 0
          if total ≤ 0 then [] else rollUp p.2 total minPct))

/-! ### Evaluation helpers for concrete inputs -/

theorem parseNumber_intLit (x : String) (l : List Char) (n : ℕ)
    (h : parseDec? (trimStr (stripCommas x)) = some ⟨false, l, [], 0⟩)
    (h2 : natOfDigits l = n) :
    parseNumber x = (n : ℚ) := by
  simp [parseNumber, jsNumber?, h, evalDecNum, natOfDigits]
  exact h2

theorem parseNumber_malformed (x : String)
    (h : parseDec? (trimStr (stripCommas x)) = none) :
    parseNumber x = 0 := by
  simp [parseNumber, jsNumber?, h]

theorem parseNumber_1 : parseNumber "1" = 1 := by
  have h := parseNumber_intLit "1" ['1'] 1 (by decide) (by decide)
  simpa using h

theorem parseNumber_3 : parseNumber "3" = 3 := by
  have h := parseNumber_intLit "3" ['3'] 3 (by decide) (by decide)
  simpa using h

theorem parseNumber_6 : parseNumber "6" = 6 := by
  have h := parseNumber_intLit "6" ['6'] 6 (by decide) (by decide)
  simpa using h

theorem parseNumber_90 : parseNumber "90" = 90 := by
  have h := parseNumber_intLit "90" ['9', '0'] 90 (by decide) (by decide)
  simpa using h

/-- Device rows for product `P` whose buckets appear in first-seen order
CTV (3), Other (1), Desktop (90), Mobile (6); total 100 impressions. -/
def devRowsSmallFirst : List (List String) :=
  [["P_1", "2024-01-01", "CTV", "3"],
   ["P_1", "2024-01-01", "Other", "1"],
   ["P_1", "2024-01-01", "Desktop", "90"],
   ["P_1", "2024-01-01", "Mobile", "6"]]

/-- The same four device rows with the dominant buckets first. -/
def devRowsBigFirst : List (List String) :=
  [["P_1", "2024-01-01", "Desktop", "90"],
   ["P_1", "2024-01-01", "Mobile", "6"],
   ["P_1", "2024-01-01", "CTV", "3"],
   ["P_1", "2024-01-01", "Other", "1"]]

theorem pid_P1 : productIdFromInsertionOrder "P_1" = "P" := by decide

theorem ndt_CTV : normalizeDeviceType "CTV" = "CTV" := by decide

theorem ndt_Other : normalizeDeviceType "Other" = "Other" := by decide

theorem ndt_Desktop : normalizeDeviceType "Desktop" = "Desktop" := by decide

theorem ndt_Mobile : normalizeDeviceType "Mobile" = "Mobile" := by decide

theorem devFold_smallFirst :
    devRowsSmallFirst.foldl ingestDevicesStep DevState.empty =
      ⟨[("P", 100)], [("P", [("CTV", 3), ("Other", 1), ("Desktop", 90), ("Mobile", 6)])]⟩ := by
  simp [devRowsSmallFirst, ingestDevicesStep, DevState.empty, colD, parseNumber_1,
    parseNumber_3, parseNumber_6, parseNumber_90, pid_P1, ndt_CTV, ndt_Other,
    ndt_Desktop, ndt_Mobile, updA]
  norm_num

theorem devFold_bigFirst :
    devRowsBigFirst.foldl ingestDevicesStep DevState.empty =
      ⟨[("P", 100)], [("P", [("Desktop", 90), ("Mobile", 6), ("CTV", 3), ("Other", 1)])]⟩ := by
  simp [devRowsBigFirst, ingestDevicesStep, DevState.empty, colD, parseNumber_1,
    parseNumber_3, parseNumber_6, parseNumber_90, pid_P1, ndt_CTV, ndt_Other,
    ndt_Desktop, ndt_Mobile, updA]
  norm_num

theorem rollUp_smallFirst :
    rollUp [("CTV", 3), ("Other", 1), ("Desktop", 90), ("Mobile", 6)] 100 5 =
      [("Desktop", 90), ("Mobile", 10)] := by
  norm_num [rollUp, maxIdxOf, addAt, round4, round_eq, List.enum, List.enumFrom,
    List.findIdx, List.findIdx.go, List.filter_cons, List.range_succ]

theorem rollUp_bigFirst :
    rollUp [("Desktop", 90), ("Mobile", 6), ("CTV", 3), ("Other", 1)] 100 5 =
      [("Desktop", 94), ("Mobile", 6)] := by
  norm_num [rollUp, maxIdxOf, addAt, round4, round_eq, List.enum, List.enumFrom,
    List.findIdx, List.findIdx.go, List.filter_cons, List.range_succ]

theorem byDevicesOf_smallFirst :
    byDevicesOf devRowsSmallFirst 5 = [("P", [("Desktop", 90), ("Mobile", 10)])] := by
  rw [byDevicesOf, devFold_smallFirst]
  norm_num [lookupA, rollUp_smallFirst]

theorem byDevicesOf_bigFirst :
    byDevicesOf devRowsBigFirst 5 = [("P", [("Desktop", 94), ("Mobile", 6)])] := by
  rw [byDevicesOf, devFold_bigFirst]
  norm_num [lookupA, rollUp_bigFirst]

/-- C1: the roll-up does NOT always add the small-bucket percentages to the
bucket with the strictly largest raw percentage.  With buckets first seen in
the order CTV 3%, Other 1%, Desktop 90%, Mobile 6% and threshold 5, the code
takes the `maxIdx >= keep.length` branch and adds the 4 rolled-up points to
Mobile (the last kept bucket), emitting {Desktop: 90, Mobile: 10} instead of
the {Desktop: 94, Mobile: 6} required by the roll-up rule stated in the
claim. -/
theorem device_rollup_misdirects_smallSum :
    byDevicesOf devRowsSmallFirst 5 = [("P", [("Desktop", 90), ("Mobile", 10)])] ∧
    lookupA (lookupA (byDevicesOf devRowsSmallFirst 5) "P" []) "Desktop" 0 ≠ 90 + 3 + 1 := by
  refine ⟨byDevicesOf_smallFirst, ?_⟩
  rw [byDevicesOf_smallFirst]
  norm_num [lookupA]

/-- C2: row order within the device file changes an emitted percentage even
though no two raw percentages are equal (so no documented tie-break is
involved): the same multiset of rows yields {Desktop: 94, Mobile: 6} in one
order and {Desktop: 90, Mobile: 10} in another. -/
theorem device_rollup_order_dependent :
    devRowsSmallFirst.Perm devRowsBigFirst ∧
    byDevicesOf devRowsBigFirst 5 = [("P", [("Desktop", 94), ("Mobile", 6)])] ∧
    byDevicesOf devRowsSmallFirst 5 = [("P", [("Desktop", 90), ("Mobile", 10)])] ∧
    byDevicesOf devRowsBigFirst 5 ≠ byDevicesOf devRowsSmallFirst 5 := by
  refine ⟨by decide, byDevicesOf_bigFirst, byDevicesOf_smallFirst, ?_⟩
  rw [byDevicesOf_bigFirst, byDevicesOf_smallFirst]
  norm_num

/-! ### Provider footer policy (isDVFooter / isFooterLine and the scan loops) -/

/-- A regex word character (`\w`): ASCII letter, digit or underscore. -/
def isWordChar (c : Char) : Bool :=
  c.isAlpha || c.isDigit || c == '_'

/-- The regex `/^\s*report time\b/i` shared by every scanner: optional leading
whitespace, the token `report time` case-insensitively, then a word boundary
(end of line or a non-word character). -/
def matchesReportTime (line : String) : Bool :=
  let l := line.data.dropWhile isJsSpace
  ((l.take 11).map Char.toLower == "report time".data) &&
    (match l.drop 11 with
     | [] => true
     | c :: _ => !(isWordChar c))

/-- generateVisionJson.js `isDVFooter` / inferAgeGender.js and
inferIabScoring.js `isFooterLine`: the footer rule fires only for provider
`dv`. -/
def isDVFooter (provider line : String) : Bool :=
  provider == "dv" && matchesReportTime line

/-- The shared scan-loop shape of every CSV ingestion pass: process lines in
order with `step`, stopping (without processing the footer or anything after
it) at the first line for which `isDVFooter` fires. -/
def scanLines {σ : Type} (provider : String) (step : σ → String → σ) :
    σ → List String → σ
  | s, [] => s
  | s, line :: rest =>
    if isDVFooter provider line then s
    else scanLines provider step (step s line) rest

theorem scanLines_no_footer {σ : Type} (provider : String) (step : σ → String → σ)
    (init : σ) (lines : List String) (h : ∀ l ∈ lines, isDVFooter provider l = false) :
    scanLines provider step init lines = lines.foldl step init := by
  induction lines generalizing init with
  | nil => rfl
  | cons hd tl ih =>
    rw [scanLines, h hd (List.mem_cons_self hd tl), List.foldl_cons]
    · exact ih (step init hd) (fun l hl => h l (List.mem_cons_of_mem hd hl))

/-- C3: for provider `dv` the scan stops exactly at the first line matching
the footer regex: every line before it is folded into the aggregate state and
nothing at or after it is; for any other provider no line stops the scan; in
particular 3 data rows followed by a `Report Time` footer and 2 further rows
count exactly 3 lines. -/
theorem dv_footer_truncation :
    (∀ (σ : Type) (step : σ → String → σ) (init : σ) (pre post : List String)
      (footer : String), (∀ l ∈ pre, isDVFooter "dv" l = false) →
      isDVFooter "dv" footer = true →
      scanLines "dv" step init (pre ++ footer :: post) = pre.foldl step init) ∧
    (∀ (σ : Type) (step : σ → String → σ) (init : σ) (lines : List String)
      (provider : String), provider ≠ "dv" →
      scanLines provider step init lines = lines.foldl step init) ∧
    scanLines "dv" (fun n (_ : String) => n + 1) (0 : ℕ)
      ["r1,10", "r2,20", "r3,30", "Report Time,2024-01-01,x", "r4,40", "r5,50"] = 3 := by
  refine ⟨?_, ?_, by decide⟩
  · intro σ step init pre post footer hpre hfoot
    induction pre generalizing init with
    | nil => simp [scanLines, hfoot]
    | cons hd tl ih =>
      rw [List.cons_append, scanLines, hpre hd (List.mem_cons_self hd tl), List.foldl_cons]
      · exact ih (step init hd) (fun l hl => hpre l (List.mem_cons_of_mem hd hl))
  · intro σ step init lines provider hprov
    refine scanLines_no_footer provider step init lines (fun l _ => ?_)
    have hb : (provider == "dv") = false := by
      simp [hprov]
    simp [isDVFooter, hb]

/-- Witness for `dv_footer_truncation`: its truncation clause applied to three
concrete data lines, a concrete footer and two trailing lines. -/
theorem dv_footer_truncation_witness :
    scanLines "dv" (fun n (_ : String) => n + 1) (0 : ℕ)
      (["a,1", "b,2", "c,3"] ++ "Report Time,2024-05-05" :: ["d,4", "e,5"]) =
      ["a,1", "b,2", "c,3"].foldl (fun n (_ : String) => n + 1) (0 : ℕ) :=
  dv_footer_truncation.1 ℕ (fun n _ => n + 1) 0 ["a,1", "b,2", "c,3"] ["d,4", "e,5"]
    "Report Time,2024-05-05" (by decide) (by decide)

/-! ### Age normalizer (inferAgeGender.js `parseAgeToken`, `expandAge`,
`yearToBin`) -/

/-- The shapes recognised by `parseAgeToken`. -/
inductive AgeToken where
  | under21 : AgeToken
  | over65 : AgeToken
  | age21plus : AgeToken
  | range : ℕ → ℕ → AgeToken
  | unknown : AgeToken
deriving DecidableEq

/-- The regex `/^-21$/i` or `/^<=?\s*21$/i`: an under-bound token. -/
def matchUnder21 : List Char → Bool
  | ['-', '2', '1'] => true
  | '<' :: '=' :: r => decide (r.dropWhile isJsSpace = ['2', '1'])
  | '<' :: r => decide (r.dropWhile isJsSpace = ['2', '1'])
  | _ => false

/-- The regex `/^65\+$/i` or `/^>=?\s*65$/i`: an over-bound token. -/
def matchOver65 : List Char → Bool
  | ['6', '5', '+'] => true
  | '>' :: '=' :: r => decide (r.dropWhile isJsSpace = ['6', '5'])
  | '>' :: r => decide (r.dropWhile isJsSpace = ['6', '5'])
  | _ => false

/-- Second half of the range regex, after the `-` separator: optional
whitespace, 1-2 digits, end of string; then the `a <= b` guard. -/
def rangeTail? (d1 r3 : List Char) : Option (ℕ × ℕ) :=
  if ((r3.dropWhile isJsSpace).takeWhile Char.isDigit).length = 0 ∨
      ((r3.dropWhile isJsSpace).takeWhile Char.isDigit).length > 2 ∨
      (r3.dropWhile isJsSpace).dropWhile Char.isDigit ≠ [] then none
  else if natOfDigits d1 ≤ natOfDigits ((r3.dropWhile isJsSpace).takeWhile Char.isDigit) then
    some (natOfDigits d1, natOfDigits ((r3.dropWhile isJsSpace).takeWhile Char.isDigit))
  else none

/-- The regex `/^(\d{1,2})\s*-\s*(\d{1,2})$/` plus the `a <= b` guard of
`parseAgeToken`: a range token. -/
def rangeParse? (l : List Char) : Option (ℕ × ℕ) :=
  if (l.takeWhile Char.isDigit).length = 0 ∨ (l.takeWhile Char.isDigit).length > 2 then none
  else
    match (l.dropWhile Char.isDigit).dropWhile isJsSpace with
    | '-' :: r3 => rangeTail? (l.takeWhile Char.isDigit) r3
    | _ => none

/-- inferAgeGender.js `parseAgeToken` on the trimmed character list: try the
under-bound, over-bound, `21+` and `A-B` shapes in order; anything else is
`unknown`. -/
def parseAgeTokenAux (s : List Char) : AgeToken :=
  if s = [] then .unknown
  else if matchUnder21 s then .under21
  else if matchOver65 s then .over65
  else if s = ['2', '1', '+'] then .age21plus
  else
    match rangeParse? s with
    | some p => .range p.1 p.2
    | none => .unknown

/-- inferAgeGender.js `parseAgeToken`: trim, then classify. -/
def parseAgeToken (ageStr : String) : AgeToken :=
  parseAgeTokenAux (trimStr ageStr).data

/-- One yielded element of `expandAge`: a per-year share or the +65 bucket. -/
inductive AgePart where
  | year : ℕ → ℚ → AgePart
  | plus65 : ℚ → AgePart
deriving DecidableEq

/-- The impression share carried by an `AgePart`. -/
def AgePart.share : AgePart → ℚ
  | .year _ q => q
  | .plus65 q => q

/-- inferAgeGender.js `expandAge`: redistribute `impressions` uniformly over
the years implied by the token.  `under21` spreads over years 0..21 (22
shares); `over65` assigns everything to the +65 bucket; `age21plus` spreads
over years 21..64 plus one extra share for the +65 bucket (denominator 45);
`range a b` spreads over years a..b; `unknown` yields nothing. -/
def expandAge : AgeToken → ℚ → List AgePart
  | .under21, impressions =>
    (List.range' 0 22).map (fun y => .year y (impressions / 22))
  | .over65, impressions => [.plus65 impressions]
  | .age21plus, impressions =>
    ((List.range' 21 44).map (fun y => .year y (impressions / 45))) ++
      [.plus65 (impressions / 45)]
  | .range a b, impressions =>
    (List.range' a (b + 1 - a)).map (fun y => .year y (impressions / (b + 1 - a)))
  | .unknown, _ => []

/-- inferAgeGender.js `yearToBin`: the seven fixed bins. -/
def yearToBin (y : ℕ) : String :=
  if y < 18 then "-18"
  else if y ≤ 24 then "18-24"
  else if y ≤ 34 then "25-34"
  else if y ≤ 44 then "35-44"
  else if y ≤ 54 then "45-54"
  else if y ≤ 64 then "55-64"
  else "+65"

/-- Total impressions carried by a list of expanded age parts. -/
def sumShares (l : List AgePart) : ℚ :=
  (l.map AgePart.share).sum

theorem sumShares_append (l1 l2 : List AgePart) :
    sumShares (l1 ++ l2) = sumShares l1 + sumShares l2 := by
  simp [sumShares]

theorem sumShares_map_const_year (l : List ℕ) (c : ℚ) :
    sumShares (l.map (fun y => AgePart.year y c)) = l.length * c := by
  induction l with
  | nil => simp [sumShares]
  | cons hd tl ih =>
    simp only [List.map_cons, sumShares, List.sum_cons, AgePart.share] at *
    rw [ih, List.length_cons]
    push_cast
    ring

theorem rangeTail?_le (d1 r3 : List Char) (a b : ℕ)
    (h : rangeTail? d1 r3 = some (a, b)) : a ≤ b := by
  unfold rangeTail? at h
  split at h
  · exact absurd h (by simp)
  · split at h
    · rename_i hle
      obtain ⟨rfl, rfl⟩ : natOfDigits d1 = a ∧ _ = b := by simpa using h
      exact hle
    · exact absurd h (by simp)

theorem rangeParse?_le (l : List Char) (a b : ℕ) (h : rangeParse? l = some (a, b)) :
    a ≤ b := by
  unfold rangeParse? at h
  split at h
  · exact absurd h (by simp)
  · split at h
    · exact rangeTail?_le _ _ _ _ h
    · exact absurd h (by simp)

theorem parseAgeTokenAux_range (s : List Char) (a b : ℕ)
    (h : parseAgeTokenAux s = .range a b) : rangeParse? s = some (a, b) := by
  unfold parseAgeTokenAux at h
  split at h
  · exact absurd h (by simp)
  · split at h
    · exact absurd h (by simp)
    · split at h
      · exact absurd h (by simp)
      · split at h
        · exact absurd h (by simp)
        · split at h
          · rename_i p heq
            obtain ⟨x, y⟩ := p
            simp only [AgeToken.range.injEq] at h
            obtain ⟨rfl, rfl⟩ := h
            exact heq
          · exact absurd h (by simp)

/-- C4: for every age token that parses to a recognised shape and every
impression count, the shares yielded by `expandAge` over the per-year buckets
and the +65 bucket sum exactly (in ℚ) to the original impression count. -/
theorem age_expansion_conserves_impressions (s : String) (n : ℚ)
    (h : parseAgeToken s ≠ AgeToken.unknown) :
    sumShares (expandAge (parseAgeToken s) n) = n := by
  rcases htok : parseAgeToken s with _ | _ | _ | ⟨a, b⟩ | _
  · rw [expandAge, sumShares_map_const_year, List.length_range']
    push_cast
    field_simp
  · simp [expandAge, sumShares, AgePart.share]
  · rw [expandAge, sumShares_append, sumShares_map_const_year, List.length_range']
    have h1 : sumShares [AgePart.plus65 (n / 45)] = n / 45 := by
      simp [sumShares, AgePart.share]
    rw [h1]
    push_cast
    field_simp
    ring
  · have hab : a ≤ b := rangeParse?_le _ _ _ (parseAgeTokenAux_range _ _ _ htok)
    have hcast : ((b + 1 - a : ℕ) : ℚ) = (b : ℚ) + 1 - a := by
      have h1 : a ≤ b + 1 := by omega
      push_cast [h1]
      ring
    rw [expandAge, sumShares_map_const_year, List.length_range', hcast]
    have hpos : (b : ℚ) + 1 - a ≠ 0 := by
      have h2 : (a : ℚ) ≤ b := by exact_mod_cast hab
      nlinarith
    field_simp
  · exact absurd htok h

/-- Witness for `age_expansion_conserves_impressions` at the token `25-34`
and 90 impressions. -/
theorem age_expansion_conserves_impressions_witness :
    sumShares (expandAge (parseAgeToken "25-34") 90) = 90 :=
  age_expansion_conserves_impressions "25-34" 90 (by decide)

/-- C5: the `21+` token (parsed from exactly the string `21+`) spreads
impressions over the 44 years 21..64 plus one unit for the +65 bucket with
denominator 45: every one of the 45 shares, including the +65 bucket's,
equals `n/45` — the same per-unit share as a single year, not the full
remainder above 64. -/
theorem age21plus_distribution (n : ℚ) :
    parseAgeToken "21+" = AgeToken.age21plus ∧
    expandAge AgeToken.age21plus n =
      ((List.range' 21 44).map (fun y => AgePart.year y (n / 45))) ++
        [AgePart.plus65 (n / 45)] ∧
    (expandAge AgeToken.age21plus n).length = 45 ∧
    (expandAge AgeToken.age21plus n).map AgePart.share = List.replicate 45 (n / 45) := by
  refine ⟨by decide, rfl, by simp [expandAge], ?_⟩
  rw [expandAge, List.map_append, List.map_map]
  rw [show (45 : ℕ) = 44 + 1 from rfl, List.replicate_succ']
  have h2 : List.map (AgePart.share ∘ fun y => AgePart.year y (n / 45)) (List.range' 21 44) =
      List.replicate 44 (n / 45) := by
    refine List.eq_replicate_iff.mpr ⟨by simp, ?_⟩
    intro q hq
    simp only [List.mem_map, Function.comp] at hq
    obtain ⟨y, _, rfl⟩ := hq
    rfl
  rw [h2]
  simp [AgePart.share]

/-! ### Demographics pass (generateVisionJson.js `ingestDemo`) -/

/-- One parsed line of gender.deaggregated.jsonl: `insertionOrder`, `gender`,
`age` and the numeric value of `impressions` after `parseNumber`. -/
structure DemoRec where
  insertionOrder : String
  gender : String
  age : String
  impressions : ℚ
deriving DecidableEq

/-- The six age bins tracked by `ingestDemo` (the `-18` bin is never stored,
so it is excluded from every numerator and denominator). -/
structure AgeBins where
  a18_24 : ℚ
  a25_34 : ℚ
  a35_44 : ℚ
  a45_54 : ℚ
  a55_64 : ℚ
  a65 : ℚ
deriving DecidableEq

def zeroBins : AgeBins := ⟨0, 0, 0, 0, 0, 0⟩

/-- Componentwise sum of bins. -/
def binsAdd (x y : AgeBins) : AgeBins :=
  ⟨x.a18_24 + y.a18_24, x.a25_34 + y.a25_34, x.a35_44 + y.a35_44,
   x.a45_54 + y.a45_54, x.a55_64 + y.a55_64, x.a65 + y.a65⟩

/-- generateVisionJson.js lines 264-271: add `imps` into the bin matching the
trimmed age label; `+65`/`65+` both hit the 65 bin; anything else (including
`-18`) is ignored. -/
def addBin (m : AgeBins) (a : String) (imps : ℚ) : AgeBins :=
  if a = "18-24" then { m with a18_24 := m.a18_24 + imps }
  else if a = "25-34" then { m with a25_34 := m.a25_34 + imps }
  else if a = "35-44" then { m with a35_44 := m.a35_44 + imps }
  else if a = "45-54" then { m with a45_54 := m.a45_54 + imps }
  else if a = "55-64" then { m with a55_64 := m.a55_64 + imps }
  else if a = "+65" ∨ a = "65+" then { m with a65 := m.a65 + imps }
  else m

/-- State of the `ingestDemo` scan: per-product male and female sums and age
bins, in first-seen order. -/
structure DemoState where
  male : List (String × ℚ)
  female : List (String × ℚ)
  ages : List (String × AgeBins)
deriving DecidableEq

def DemoState.empty : DemoState := ⟨[], [], []⟩

/-- One record of the `ingestDemo` loop (generateVisionJson.js lines 242-272):
rows with an empty product id or zero/unparsable impressions are skipped;
gender sums use strict case-insensitive equality with `male`/`female`; the
age-bin map entry is created for every counted row. -/
def ingestDemoStep (s : DemoState) (r : DemoRec) : DemoState :=
  if productIdFromInsertionOrder r.insertionOrder = "" then s
  else if r.impressions = 0 then s
  else
    { male :=
        if lowerStr r.gender = "male" then
          updA s.male (productIdFromInsertionOrder r.insertionOrder) 0 (fun v => v + r.impressions)
        else s.male
      female :=
        if lowerStr r.gender = "female" then
          updA s.female (productIdFromInsertionOrder r.insertionOrder) 0 (fun v => v + r.impressions)
        else s.female
      ages :=
        updA s.ages (productIdFromInsertionOrder r.insertionOrder) zeroBins
          (fun m => addBin m (trimStr r.age) r.impressions) }

/-- The demo output fields of one product. -/
structure DemoOut where
  gender_male : ℚ
  gender_female : ℚ
  age_18_24 : ℚ
  age_25_34 : ℚ
  age_35_44 : ℚ
  age_45_54 : ℚ
  age_55_64 : ℚ
  age_65 : ℚ
deriving DecidableEq

/-- generateVisionJson.js lines 275-295: percentages with the corrected
denominators (male+female only; sum of the six bins only), rounded to 4
decimals, 0 on a non-positive denominator. -/
def demoOutOf (st : DemoState) (pid : String) : DemoOut :=
  let m := lookupA st.male pid 0
  let f := lookupA st.female pid 0
  let genderDen := m + f
  let aMap := lookupA st.ages pid zeroBins
  let ageDen := aMap.a18_24 + aMap.a25_34 + aMap.a35_44 + aMap.a45_54 + aMap.a55_64 + aMap.a65
  { gender_male := if genderDen > 0 then pct4 m genderDen else 0
    gender_female := if genderDen > 0 then pct4 f genderDen else 0
    age_18_24 := if ageDen > 0 then pct4 aMap.a18_24 ageDen else 0
    age_25_34 := if ageDen > 0 then pct4 aMap.a25_34 ageDen else 0
    age_35_44 := if ageDen > 0 then pct4 aMap.a35_44 ageDen else 0
    age_45_54 := if ageDen > 0 then pct4 aMap.a45_54 ageDen else 0
    age_55_64 := if ageDen > 0 then pct4 aMap.a55_64 ageDen else 0
    age_65 := if ageDen > 0 then pct4 aMap.a65 ageDen else 0 }

/-- First-occurrence deduplication (JavaScript `new Set([...])` iteration
order). -/
def dedupFirst (l : List String) : List String :=
  l.foldl (fun acc x => if x ∈ acc then acc else acc ++ [x]) []

/-- Full `ingestDemo` result: fold the records, then emit one demo object per
product key appearing in any of the three maps. -/
def visionDemo (recs : List DemoRec) : List (String × DemoOut) :=
  let st := recs.foldl ingestDemoStep DemoState.empty
  (dedupFirst (st.male.map Prod.fst ++ st.female.map Prod.fst ++ st.ages.map Prod.fst)).map
    (fun pid => (pid, demoOutOf st pid))

/-- Specification-side sum (from the spec's words): total impressions of the
records of product `pid` whose gender equals, case-insensitively, exactly
`male` (rows with zero/unparsable impressions never count). -/
def maleSum (recs : List DemoRec) (pid : String) : ℚ :=
  (recs.map (fun r =>
    if productIdFromInsertionOrder r.insertionOrder = pid ∧ pid ≠ "" ∧
        r.impressions ≠ 0 ∧ lowerStr r.gender = "male" then r.impressions else 0)).sum

/-- Specification-side sum for gender `female`. -/
def femaleSum (recs : List DemoRec) (pid : String) : ℚ :=
  (recs.map (fun r =>
    if productIdFromInsertionOrder r.insertionOrder = pid ∧ pid ≠ "" ∧
        r.impressions ≠ 0 ∧ lowerStr r.gender = "female" then r.impressions else 0)).sum

/-- Specification-side sum of the impressions of product `pid` whose trimmed
age label lies in `labels`. -/
def ageSumIn (recs : List DemoRec) (pid : String) (labels : List String) : ℚ :=
  (recs.map (fun r =>
    if productIdFromInsertionOrder r.insertionOrder = pid ∧ pid ≠ "" ∧
        r.impressions ≠ 0 ∧ trimStr r.age ∈ labels then r.impressions else 0)).sum

/-- Specification-side age bins of product `pid`. -/
def binsSpec (recs : List DemoRec) (pid : String) : AgeBins :=
  ⟨ageSumIn recs pid ["18-24"], ageSumIn recs pid ["25-34"], ageSumIn recs pid ["35-44"],
   ageSumIn recs pid ["45-54"], ageSumIn recs pid ["55-64"], ageSumIn recs pid ["+65", "65+"]⟩

/-- Modelled from the spec (§4.8 Demographics): gender percentages use
denominator = male+female sums only; age percentages use denominator = sum of
the six named bins only with the `-18` bin excluded; 4-decimal rounding; zero
denominator yields 0. -/
def demoSpecOf (recs : List DemoRec) (pid : String) : DemoOut :=
  let m := maleSum recs pid
  let f := femaleSum recs pid
  let genderDen := m + f
  let bins := binsSpec recs pid
  let ageDen := bins.a18_24 + bins.a25_34 + bins.a35_44 + bins.a45_54 + bins.a55_64 + bins.a65
  { gender_male := if genderDen > 0 then pct4 m genderDen else 0
    gender_female := if genderDen > 0 then pct4 f genderDen else 0
    age_18_24 := if ageDen > 0 then pct4 bins.a18_24 ageDen else 0
    age_25_34 := if ageDen > 0 then pct4 bins.a25_34 ageDen else 0
    age_35_44 := if ageDen > 0 then pct4 bins.a35_44 ageDen else 0
    age_45_54 := if ageDen > 0 then pct4 bins.a45_54 ageDen else 0
    age_55_64 := if ageDen > 0 then pct4 bins.a55_64 ageDen else 0
    age_65 := if ageDen > 0 then pct4 bins.a65 ageDen else 0 }

theorem addBin_components (m : AgeBins) (a : String) (imps : ℚ) :
    addBin m a imps =
      binsAdd m ⟨if a ∈ ["18-24"] then imps else 0, if a ∈ ["25-34"] then imps else 0,
        if a ∈ ["35-44"] then imps else 0, if a ∈ ["45-54"] then imps else 0,
        if a ∈ ["55-64"] then imps else 0, if a ∈ ["+65", "65+"] then imps else 0⟩ := by
  unfold addBin binsAdd
  split_ifs with h1 h2 h3 h4 h5 h6 <;> simp_all

theorem binsAdd_zero_right (x : AgeBins) : binsAdd x zeroBins = x := by
  simp [binsAdd, zeroBins]

theorem binsAdd_assoc (x y z : AgeBins) :
    binsAdd (binsAdd x y) z = binsAdd x (binsAdd y z) := by
  simp [binsAdd]
  refine ⟨by ring, by ring, by ring, by ring, by ring, by ring⟩

theorem maleSum_cons (r : DemoRec) (rest : List DemoRec) (pid : String) :
    maleSum (r :: rest) pid =
      (if productIdFromInsertionOrder r.insertionOrder = pid ∧ pid ≠ "" ∧
          r.impressions ≠ 0 ∧ lowerStr r.gender = "male" then r.impressions else 0) +
        maleSum rest pid := by
  simp [maleSum]

theorem femaleSum_cons (r : DemoRec) (rest : List DemoRec) (pid : String) :
    femaleSum (r :: rest) pid =
      (if productIdFromInsertionOrder r.insertionOrder = pid ∧ pid ≠ "" ∧
          r.impressions ≠ 0 ∧ lowerStr r.gender = "female" then r.impressions else 0) +
        femaleSum rest pid := by
  simp [femaleSum]

/-- The three accumulators of the demo fold agree with the specification-side
sums, for any starting state. -/
theorem demo_fold_eval (recs : List DemoRec) (st : DemoState) (pid : String) :
    lookupA (recs.foldl ingestDemoStep st).male pid 0 =
      lookupA st.male pid 0 + maleSum recs pid ∧
    lookupA (recs.foldl ingestDemoStep st).female pid 0 =
      lookupA st.female pid 0 + femaleSum recs pid ∧
    lookupA (recs.foldl ingestDemoStep st).ages pid zeroBins =
      binsAdd (lookupA st.ages pid zeroBins) (binsSpec recs pid) := by
  induction recs generalizing st with
  | nil =>
    refine ⟨by simp [maleSum], by simp [femaleSum], ?_⟩
    simp [binsSpec, ageSumIn, binsAdd, zeroBins]
  | cons r rest ih =>
    obtain ⟨ihm, ihf, iha⟩ := ih (ingestDemoStep st r)
    rw [List.foldl_cons]
    have binsSpec_cons : binsSpec (r :: rest) pid =
        binsAdd (if productIdFromInsertionOrder r.insertionOrder = pid ∧ pid ≠ "" ∧
            r.impressions ≠ 0 then
          ⟨if trimStr r.age ∈ ["18-24"] then r.impressions else 0,
           if trimStr r.age ∈ ["25-34"] then r.impressions else 0,
           if trimStr r.age ∈ ["35-44"] then r.impressions else 0,
           if trimStr r.age ∈ ["45-54"] then r.impressions else 0,
           if trimStr r.age ∈ ["55-64"] then r.impressions else 0,
           if trimStr r.age ∈ ["+65", "65+"] then r.impressions else 0⟩
          else zeroBins) (binsSpec rest pid) := by
      by_cases hc : productIdFromInsertionOrder r.insertionOrder = pid ∧ pid ≠ "" ∧
          r.impressions ≠ 0
      · obtain ⟨hc1, hc2, hc3⟩ := hc
        unfold binsSpec ageSumIn binsAdd
        simp only [List.map_cons, List.sum_cons, if_pos (And.intro hc1 (And.intro hc2 hc3)),
          AgeBins.mk.injEq]
        refine ⟨?_, ?_, ?_, ?_, ?_, ?_⟩ <;> simp [hc1, hc2, hc3]
      · unfold binsSpec ageSumIn binsAdd zeroBins
        simp only [List.map_cons, List.sum_cons, if_neg hc, AgeBins.mk.injEq]
        refine ⟨?_, ?_, ?_, ?_, ?_, ?_⟩ <;>
          rw [if_neg (fun hh => hc ⟨hh.1, hh.2.1, hh.2.2.1⟩), zero_add]
    by_cases hpid0 : productIdFromInsertionOrder r.insertionOrder = ""
    · have hstep : ingestDemoStep st r = st := by
        rw [ingestDemoStep, if_pos hpid0]
      rw [hstep] at ihm ihf iha
      have hnc : ¬(productIdFromInsertionOrder r.insertionOrder = pid ∧ pid ≠ "" ∧
          r.impressions ≠ 0) := by
        rintro ⟨h1, h2, _⟩
        exact h2 (by rw [← h1, hpid0])
      refine ⟨?_, ?_, ?_⟩
      · rw [hstep, ihm, maleSum_cons, if_neg (fun hh => hnc ⟨hh.1, hh.2.1, hh.2.2.1⟩)]
        ring
      · rw [hstep, ihf, femaleSum_cons, if_neg (fun hh => hnc ⟨hh.1, hh.2.1, hh.2.2.1⟩)]
        ring
      · rw [hstep, iha, binsSpec_cons, if_neg hnc]
        rw [show binsAdd zeroBins (binsSpec rest pid) = binsSpec rest pid from by
          simp [binsAdd, zeroBins]]
    · by_cases himp0 : r.impressions = 0
      · have hstep : ingestDemoStep st r = st := by
          rw [ingestDemoStep, if_neg hpid0, if_pos himp0]
        rw [hstep] at ihm ihf iha
        have hnc : ¬(productIdFromInsertionOrder r.insertionOrder = pid ∧ pid ≠ "" ∧
            r.impressions ≠ 0) := by
          rintro ⟨_, _, h3⟩
          exact h3 himp0
        refine ⟨?_, ?_, ?_⟩
        · rw [hstep, ihm, maleSum_cons, if_neg (fun hh => hnc ⟨hh.1, hh.2.1, hh.2.2.1⟩)]
          ring
        · rw [hstep, ihf, femaleSum_cons, if_neg (fun hh => hnc ⟨hh.1, hh.2.1, hh.2.2.1⟩)]
          ring
        · rw [hstep, iha, binsSpec_cons, if_neg hnc]
          rw [show binsAdd zeroBins (binsSpec rest pid) = binsSpec rest pid from by
            simp [binsAdd, zeroBins]]
      · have hmale : (ingestDemoStep st r).male =
            if lowerStr r.gender = "male" then
              updA st.male (productIdFromInsertionOrder r.insertionOrder) 0
                (fun v => v + r.impressions) else st.male := by
          rw [ingestDemoStep, if_neg hpid0, if_neg himp0]
        have hfemale : (ingestDemoStep st r).female =
            if lowerStr r.gender = "female" then
              updA st.female (productIdFromInsertionOrder r.insertionOrder) 0
                (fun v => v + r.impressions) else st.female := by
          rw [ingestDemoStep, if_neg hpid0, if_neg himp0]
        have hages : (ingestDemoStep st r).ages =
            updA st.ages (productIdFromInsertionOrder r.insertionOrder) zeroBins
              (fun m => addBin m (trimStr r.age) r.impressions) := by
          rw [ingestDemoStep, if_neg hpid0, if_neg himp0]
        by_cases hpp : productIdFromInsertionOrder r.insertionOrder = pid
        · have hpidne : pid ≠ "" := by rw [← hpp]; exact hpid0
          refine ⟨?_, ?_, ?_⟩
          · rw [ihm, hmale]
            by_cases hg : lowerStr r.gender = "male"
            · rw [if_pos hg, hpp, lookupA_updA_self, maleSum_cons,
                if_pos ⟨hpp, hpidne, himp0, hg⟩]
              ring
            · rw [if_neg hg, maleSum_cons, if_neg (fun hh => hg hh.2.2.2)]
              ring
          · rw [ihf, hfemale]
            by_cases hg : lowerStr r.gender = "female"
            · rw [if_pos hg, hpp, lookupA_updA_self, femaleSum_cons,
                if_pos ⟨hpp, hpidne, himp0, hg⟩]
              ring
            · rw [if_neg hg, femaleSum_cons, if_neg (fun hh => hg hh.2.2.2)]
              ring
          · rw [iha, hages, hpp, lookupA_updA_self, binsSpec_cons,
              if_pos ⟨hpp, hpidne, himp0⟩, addBin_components, binsAdd_assoc]
        · refine ⟨?_, ?_, ?_⟩
          · rw [ihm, hmale]
            by_cases hg : lowerStr r.gender = "male"
            · rw [if_pos hg, lookupA_updA_ne _ _ _ _ _ _ (Ne.symm hpp), maleSum_cons,
                if_neg (fun hh => hpp hh.1)]
              ring
            · rw [if_neg hg, maleSum_cons, if_neg (fun hh => hpp hh.1)]
              ring
          · rw [ihf, hfemale]
            by_cases hg : lowerStr r.gender = "female"
            · rw [if_pos hg, lookupA_updA_ne _ _ _ _ _ _ (Ne.symm hpp), femaleSum_cons,
                if_neg (fun hh => hpp hh.1)]
              ring
            · rw [if_neg hg, femaleSum_cons, if_neg (fun hh => hpp hh.1)]
              ring
          · rw [iha, hages, lookupA_updA_ne _ _ _ _ _ _ (Ne.symm hpp), binsSpec_cons,
              if_neg (fun hh => hpp hh.1)]
            rw [show binsAdd zeroBins (binsSpec rest pid) = binsSpec rest pid from by
              simp [binsAdd, zeroBins]]

/-- Demo records matching the spec's worked example: male 60, female 40,
age 18-24 = 30, 25-34 = 70 for one product `P`. -/
def exDemoRecs : List DemoRec :=
  [⟨"P_1", "male", "18-24", 30⟩, ⟨"P_1", "male", "25-34", 30⟩,
   ⟨"P_1", "female", "25-34", 40⟩]

theorem demoOutOf_fold_eq_spec (recs : List DemoRec) (pid : String) :
    demoOutOf (recs.foldl ingestDemoStep DemoState.empty) pid = demoSpecOf recs pid := by
  obtain ⟨hm, hf, ha⟩ := demo_fold_eval recs DemoState.empty pid
  rw [show lookupA DemoState.empty.male pid 0 = 0 from rfl, zero_add] at hm
  rw [show lookupA DemoState.empty.female pid 0 = 0 from rfl, zero_add] at hf
  rw [show lookupA DemoState.empty.ages pid zeroBins = zeroBins from rfl] at ha
  have ha2 : lookupA (recs.foldl ingestDemoStep DemoState.empty).ages pid zeroBins =
      binsSpec recs pid := by
    rw [ha]
    simp [binsAdd, zeroBins]
  simp only [demoOutOf, demoSpecOf, hm, hf, ha2]

theorem demoFold_ex :
    exDemoRecs.foldl ingestDemoStep DemoState.empty =
      ⟨[("P", 60)], [("P", 40)], [("P", ⟨30, 70, 0, 0, 0, 0⟩)]⟩ := by
  have t1 : trimStr "18-24" = "18-24" := by decide
  have t2 : trimStr "25-34" = "25-34" := by decide
  have g1 : lowerStr "male" = "male" := by decide
  have g2 : lowerStr "female" = "female" := by decide
  simp [exDemoRecs, ingestDemoStep, DemoState.empty, pid_P1, g1, g2, t1, t2, updA,
    addBin, zeroBins]
  norm_num

theorem visionDemo_ex :
    visionDemo exDemoRecs = [("P", ⟨60, 40, 30, 70, 0, 0, 0, 0⟩)] := by
  rw [visionDemo, demoFold_ex]
  simp [dedupFirst, demoOutOf, lookupA]
  norm_num [pct4, round4, round_eq]

/-- C6: every demo object emitted by the demographics pass has gender
percentages with denominator = male+female sums only (strict case-insensitive
equality on `male`/`female`, anything else excluded from numerator and
denominator), age percentages with denominator = the sum of the six bins
18-24..+65 (the `-18` bin excluded from numerator and denominator), all
rounded to 4 decimals with 0 on a zero denominator; in particular male=60,
female=40, 18-24=30, 25-34=70 yields 60/40/30/70 and all other age fields
zero. -/
theorem demo_percentages_spec :
    (∀ (recs : List DemoRec) (pid : String) (out : DemoOut),
      (pid, out) ∈ visionDemo recs → out = demoSpecOf recs pid) ∧
    visionDemo exDemoRecs = [("P", ⟨60, 40, 30, 70, 0, 0, 0, 0⟩)] := by
  refine ⟨?_, visionDemo_ex⟩
  intro recs pid out hmem
  simp only [visionDemo, List.mem_map] at hmem
  obtain ⟨pid', _hin, heq⟩ := hmem
  obtain ⟨h1, h2⟩ := Prod.mk.injEq _ _ _ _ |>.mp heq
  subst h1
  rw [← h2]
  exact demoOutOf_fold_eq_spec recs pid'

/-- Witness for `demo_percentages_spec`: its first clause applied to the
worked example. -/
theorem demo_percentages_spec_witness :
    (⟨60, 40, 30, 70, 0, 0, 0, 0⟩ : DemoOut) = demoSpecOf exDemoRecs "P" :=
  demo_percentages_spec.1 exDemoRecs "P" ⟨60, 40, 30, 70, 0, 0, 0, 0⟩
    (by rw [visionDemo_ex]; exact List.mem_singleton.mpr rfl)

/-! ### Category tier extractor (extractCategories.js `preprocessForProvider`
and the main dedup/emit loop) -/

/-- Remove the first occurrence of `c` (extractCategories.js
`raw.slice(0, idx) + raw.slice(idx + 1)` after `indexOf`); identity when `c`
does not occur. -/
def removeFirstChar (l : List Char) (c : Char) : List Char :=
  match l with
  | [] => []
  | x :: rest => if x = c then rest else x :: removeFirstChar rest c

/-- extractCategories.js / inferIabScoring.js `preprocessForProvider`: for
provider `dv` remove the first occurrence of the separator before splitting;
for every other provider the string is untouched. -/
def preprocessForProvider (raw provider : String) (splitChar : Char) : String :=
  if provider = "dv" then ⟨removeFirstChar raw.data splitChar⟩ else raw

/-- JavaScript `String.prototype.split` with a single-character separator. -/
def splitChar (sep : Char) : List Char → List (List Char)
  | [] => [[]]
  | c :: rest =>
    if c = sep then [] :: splitChar sep rest
    else
      match splitChar sep rest with
      | h :: t => (c :: h) :: t
      | [] => [[c]]

/-- The trimmed non-empty parts of a category string
(`preprocessed.split(splitval).map(normalizePart).filter(Boolean)`). -/
def partsOf (raw provider : String) (sep : Char) : List String :=
  ((splitChar sep (preprocessForProvider raw provider sep).data).map
    (fun cs => trimStr ⟨cs⟩)).filter (fun p => p ≠ "")

/-- extractCategories.js lines 167-175: a category row yields the first
`depth` parts, or is skipped entirely when fewer than `depth` non-empty parts
remain (or the tier slice is empty). -/
def processCategoryRow (raw provider : String) (sep : Char) (depth : ℕ) :
    Option (List String) :=
  if (partsOf raw provider sep).length < depth then none
  else if (partsOf raw provider sep).take depth = [] then none
  else some ((partsOf raw provider sep).take depth)

/-- The dedup key of a tier tuple: parts joined by U+0001
(`tiers.join('\u0001')`). -/
def keyOf (t : List String) : String :=
  ⟨List.intercalate ['\x01'] (t.map String.data)⟩

/-- extractCategories.js dedup loop: fold the rows, keeping the U+0001-joined
key of each extracted tuple on first sight. -/
def uniqKeysOf (rows : List String) (provider : String) (sep : Char) (depth : ℕ) :
    List String :=
  rows.foldl (fun acc raw =>
    match processCategoryRow raw provider sep depth with
    | none => acc
    | some t => if keyOf t ∈ acc then acc else acc ++ [keyOf t]) []

/-- extractCategories.js emission loop (lines 185-193): split each unique key
back on U+0001 and emit one object with fields `tier1..tierM` in order. -/
def emitObj (key : String) : List (String × String) :=
  ((splitChar '\x01' key.data).map (fun cs => (⟨cs⟩ : String))).enum.map
    (fun p => ("tier" ++ toString (p.1 + 1), p.2))

/-- Whole extractCategories run over the category column values of the data
rows: the emitted JSONL objects, one per unique key. -/
def extractCategoriesRun (rows : List String) (provider : String) (sep : Char)
    (depth : ℕ) : List (List (String × String)) :=
  (uniqKeysOf rows provider sep depth).map emitObj

theorem removeFirstChar_no_occ (l : List Char) (c : Char) (h : c ∉ l) :
    removeFirstChar l c = l := by
  induction l with
  | nil => rfl
  | cons x rest ih =>
    rw [removeFirstChar, if_neg (fun he => h (by rw [← he]; exact List.mem_cons_self x rest))]
    rw [ih (fun hm => h (List.mem_cons_of_mem x hm))]

theorem removeFirstChar_first_occ (a b : List Char) (c : Char) (h : c ∉ a) :
    removeFirstChar (a ++ c :: b) c = a ++ b := by
  induction a with
  | nil => simp [removeFirstChar]
  | cons x rest ih =>
    rw [List.cons_append, removeFirstChar,
      if_neg (fun he => h (by rw [← he]; exact List.mem_cons_self x rest)), List.cons_append]
    rw [ih (fun hm => h (List.mem_cons_of_mem x hm))]

theorem splitChar_no_occ (sep : Char) (l : List Char) (h : sep ∉ l) :
    splitChar sep l = [l] := by
  induction l with
  | nil => rfl
  | cons x rest ih =>
    rw [splitChar, if_neg (fun he => h (by rw [← he]; exact List.mem_cons_self x rest))]
    rw [ih (fun hm => h (List.mem_cons_of_mem x hm))]

theorem splitChar_first_occ (sep : Char) (p rest : List Char) (h : sep ∉ p) :
    splitChar sep (p ++ sep :: rest) = p :: splitChar sep rest := by
  induction p with
  | nil => simp [splitChar]
  | cons x xs ih =>
    rw [List.cons_append, splitChar,
      if_neg (fun he => h (by rw [← he]; exact List.mem_cons_self x xs)),
      ih (fun hm => h (List.mem_cons_of_mem x hm))]

theorem splitChar_intercalate (sep : Char) (parts : List (List Char))
    (hne : parts ≠ []) (h : ∀ p ∈ parts, sep ∉ p) :
    splitChar sep (List.intercalate [sep] parts) = parts := by
  induction parts with
  | nil => exact absurd rfl hne
  | cons p rest ih =>
    cases rest with
    | nil =>
      rw [show List.intercalate [sep] [p] = p from by simp [List.intercalate]]
      exact splitChar_no_occ sep p (h p (List.mem_cons_self p []))
    | cons q qs =>
      have hstep : List.intercalate [sep] (p :: q :: qs) =
          p ++ sep :: List.intercalate [sep] (q :: qs) := by
        simp [List.intercalate, List.intersperse]
      rw [hstep, splitChar_first_occ sep p _ (h p (List.mem_cons_self p _))]
      rw [ih (by simp) (fun x hx => h x (List.mem_cons_of_mem p hx))]

theorem keyOf_inj (t u : List String) (htne : t ≠ []) (hune : u ≠ [])
    (ht : ∀ part ∈ t, '\x01' ∉ part.data) (hu : ∀ part ∈ u, '\x01' ∉ part.data)
    (h : keyOf t = keyOf u) : t = u := by
  have hdata : List.intercalate ['\x01'] (t.map String.data) =
      List.intercalate ['\x01'] (u.map String.data) := congrArg String.data h
  have hsplit : t.map String.data = u.map String.data := by
    rw [← splitChar_intercalate '\x01' (t.map String.data) (by simpa using htne)
        (by intro p hp; obtain ⟨s, hs, rfl⟩ := List.mem_map.mp hp; exact ht s hs),
      ← splitChar_intercalate '\x01' (u.map String.data) (by simpa using hune)
        (by intro p hp; obtain ⟨s, hs, rfl⟩ := List.mem_map.mp hp; exact hu s hs),
      hdata]
  have : ∀ (x y : List String), x.map String.data = y.map String.data → x = y := by
    intro x
    induction x with
    | nil =>
      intro y hy
      cases y with
      | nil => rfl
      | cons a b => exact absurd hy (by simp)
    | cons a b ihb =>
      intro y hy
      cases y with
      | nil => exact absurd hy (by simp)
      | cons c d =>
        simp only [List.map_cons, List.cons.injEq] at hy
        obtain ⟨h1, h2⟩ := hy
        have h1' : a = c := by
          cases a
          cases c
          exact congrArg String.mk (by simpa using h1)
        rw [h1', ihb d h2]
  exact this t u hsplit

theorem uniqKeysOf_mem (rows : List String) (provider : String) (sep : Char)
    (depth : ℕ) (k : String) :
    k ∈ uniqKeysOf rows provider sep depth ↔
      ∃ raw ∈ rows, ∃ t, processCategoryRow raw provider sep depth = some t ∧
        keyOf t = k := by
  have main : ∀ (rs : List String) (acc : List String),
      (k ∈ rs.foldl (fun acc raw =>
        match processCategoryRow raw provider sep depth with
        | none => acc
        | some t => if keyOf t ∈ acc then acc else acc ++ [keyOf t]) acc ↔
      (k ∈ acc ∨ ∃ raw ∈ rs, ∃ t,
        processCategoryRow raw provider sep depth = some t ∧ keyOf t = k)) := by
    intro rs
    induction rs with
    | nil => simp
    | cons r rest ih =>
      intro acc
      rw [List.foldl_cons]
      rcases hp : processCategoryRow r provider sep depth with _ | t
      · simp only [hp]
        rw [ih acc]
        constructor
        · rintro (ha | hex)
          · exact Or.inl ha
          · obtain ⟨raw, hraw, t, hpt, hk⟩ := hex
            exact Or.inr ⟨raw, List.mem_cons_of_mem r hraw, t, hpt, hk⟩
        · rintro (ha | ⟨raw, hraw, t, hpt, hk⟩)
          · exact Or.inl ha
          · rcases List.mem_cons.mp hraw with rfl | hraw2
            · rw [hp] at hpt
              exact absurd hpt (by simp)
            · exact Or.inr ⟨raw, hraw2, t, hpt, hk⟩
      · simp only [hp]
        by_cases hin : keyOf t ∈ acc
        · rw [if_pos hin, ih acc]
          constructor
          · rintro (ha | hex)
            · exact Or.inl ha
            · obtain ⟨raw, hraw, u, hpu, hk⟩ := hex
              exact Or.inr ⟨raw, List.mem_cons_of_mem r hraw, u, hpu, hk⟩
          · rintro (ha | ⟨raw, hraw, u, hpu, hk⟩)
            · exact Or.inl ha
            · rcases List.mem_cons.mp hraw with rfl | hraw2
              · rw [hp] at hpu
                obtain rfl : t = u := by simpa using hpu
                exact Or.inl (hk ▸ hin)
              · exact Or.inr ⟨raw, hraw2, u, hpu, hk⟩
        · rw [if_neg hin, ih (acc ++ [keyOf t])]
          constructor
          · rintro (ha | hex)
            · rcases List.mem_append.mp ha with h1 | h2
              · exact Or.inl h1
              · refine Or.inr ⟨r, List.mem_cons_self r rest, t, hp, ?_⟩
                have : k = keyOf t := by simpa using h2
                exact this.symm
            · obtain ⟨raw, hraw, u, hpu, hk⟩ := hex
              exact Or.inr ⟨raw, List.mem_cons_of_mem r hraw, u, hpu, hk⟩
          · rintro (ha | ⟨raw, hraw, u, hpu, hk⟩)
            · exact Or.inl (List.mem_append.mpr (Or.inl ha))
            · rcases List.mem_cons.mp hraw with rfl | hraw2
              · rw [hp] at hpu
                obtain rfl : t = u := by simpa using hpu
                exact Or.inl (List.mem_append.mpr (Or.inr (by simp [hk])))
              · exact Or.inr ⟨raw, hraw2, u, hpu, hk⟩
  rw [uniqKeysOf, main rows []]
  simp

theorem uniqKeysOf_nodup (rows : List String) (provider : String) (sep : Char)
    (depth : ℕ) : (uniqKeysOf rows provider sep depth).Nodup := by
  have main : ∀ (rs : List String) (acc : List String), acc.Nodup →
      (rs.foldl (fun acc raw =>
        match processCategoryRow raw provider sep depth with
        | none => acc
        | some t => if keyOf t ∈ acc then acc else acc ++ [keyOf t]) acc).Nodup := by
    intro rs
    induction rs with
    | nil => exact fun acc h => h
    | cons r rest ih =>
      intro acc hacc
      rw [List.foldl_cons]
      rcases hp : processCategoryRow r provider sep depth with _ | t
      · exact ih acc hacc
      · by_cases hin : keyOf t ∈ acc
        · simp only [hp, if_pos hin]
          exact ih acc hacc
        · simp only [hp, if_neg hin]
          refine ih (acc ++ [keyOf t]) ?_
          simp [List.nodup_append, hacc, hin]
  exact main rows [] List.nodup_nil

theorem processCategoryRow_some (raw provider : String) (sep : Char) (depth : ℕ)
    (t : List String) (h : processCategoryRow raw provider sep depth = some t) :
    t = (partsOf raw provider sep).take depth ∧ t ≠ [] ∧
      depth ≤ (partsOf raw provider sep).length := by
  unfold processCategoryRow at h
  split at h
  · exact absurd h (by simp)
  · split at h
    · exact absurd h (by simp)
    · rename_i hlen htake
      obtain rfl : (partsOf raw provider sep).take depth = t := by simpa using h
      exact ⟨rfl, htake, by omega⟩

/-- C7 counterexample: two rows whose distinct tier tuples share the same
U+0001-joined dedup key are conflated into a single emitted object, and that
object carries three `tier` fields although the configured depth is 2. -/
theorem category_dedup_sentinel_collision :
    processCategoryRow "/a\x01b/c" "dv" '/' 2 = some ["a\x01b", "c"] ∧
    processCategoryRow "/a/b\x01c" "dv" '/' 2 = some ["a", "b\x01c"] ∧
    (["a\x01b", "c"] : List String) ≠ ["a", "b\x01c"] ∧
    extractCategoriesRun ["/a\x01b/c", "/a/b\x01c"] "dv" '/' 2 =
      [[("tier1", "a"), ("tier2", "b"), ("tier3", "c")]] := by
  refine ⟨by decide, by decide, by decide, by decide⟩

/-- C7 (amended): for provider `dv` exactly the first separator occurrence is
removed before splitting (other providers untouched); a row with fewer than
`depth` non-empty trimmed parts (or depth 0) is skipped entirely, otherwise
exactly the first `depth` parts form the tuple; the run deduplicates globally
on the U+0001-joined key and emits one `tier1..tierM` object per unique key;
and provided no part contains the U+0001 sentinel this is exactly one object
with keys `tier1..tierN` per unique tuple. -/
theorem category_extractor_amended :
    (∀ (a b : List Char) (c : Char), c ∉ a →
      preprocessForProvider ⟨a ++ c :: b⟩ "dv" c = ⟨a ++ b⟩) ∧
    (∀ (raw : String) (c : Char), c ∉ raw.data →
      preprocessForProvider raw "dv" c = raw) ∧
    (∀ (raw provider : String) (c : Char), provider ≠ "dv" →
      preprocessForProvider raw provider c = raw) ∧
    (∀ (raw provider : String) (sep : Char) (depth : ℕ),
      (processCategoryRow raw provider sep depth = none ↔
        (partsOf raw provider sep).length < depth ∨ depth = 0) ∧
      (∀ t, processCategoryRow raw provider sep depth = some t →
        t = (partsOf raw provider sep).take depth ∧ t.length = depth)) ∧
    (∀ (rows : List String) (provider : String) (sep : Char) (depth : ℕ),
      (uniqKeysOf rows provider sep depth).Nodup ∧
      (∀ k, k ∈ uniqKeysOf rows provider sep depth ↔
        ∃ raw ∈ rows, ∃ t, processCategoryRow raw provider sep depth = some t ∧
          keyOf t = k) ∧
      extractCategoriesRun rows provider sep depth =
        (uniqKeysOf rows provider sep depth).map emitObj) ∧
    (∀ (t : List String), t ≠ [] → (∀ part ∈ t, '\x01' ∉ part.data) →
      emitObj (keyOf t) = t.enum.map (fun p => ("tier" ++ toString (p.1 + 1), p.2))) ∧
    (∀ (rows : List String) (provider : String) (sep : Char) (depth : ℕ)
      (t : List String), t ≠ [] → (∀ part ∈ t, '\x01' ∉ part.data) →
      (∀ raw ∈ rows, ∀ u, processCategoryRow raw provider sep depth = some u →
        ∀ part ∈ u, '\x01' ∉ part.data) →
      (keyOf t ∈ uniqKeysOf rows provider sep depth ↔
        ∃ raw ∈ rows, processCategoryRow raw provider sep depth = some t)) := by
  refine ⟨?_, ?_, ?_, ?_, ?_, ?_, ?_⟩
  · intro a b c hc
    rw [preprocessForProvider, if_pos rfl]
    exact congrArg String.mk (removeFirstChar_first_occ a b c hc)
  · intro raw c hc
    rw [preprocessForProvider, if_pos rfl, removeFirstChar_no_occ raw.data c hc]
  · intro raw provider c hprov
    rw [preprocessForProvider, if_neg hprov]
  · intro raw provider sep depth
    constructor
    · unfold processCategoryRow
      by_cases h1 : (partsOf raw provider sep).length < depth
      · simp [h1]
      · rw [if_neg h1]
        by_cases h2 : (partsOf raw provider sep).take depth = []
        · rw [if_pos h2]
          rcases List.take_eq_nil_iff.mp h2 with h3 | h3
          · simp [h3, h1]
          · rw [h3] at h1
            simp only [List.length_nil] at h1
            have : depth = 0 := by omega
            simp [this, h1]
        · rw [if_neg h2]
          have hd0 : depth ≠ 0 := by
            intro h0
            exact h2 (by simp [h0])
          simp [h1, hd0]
    · intro t ht
      obtain ⟨rfl, _hne, hle⟩ := processCategoryRow_some raw provider sep depth t ht
      exact ⟨rfl, by rw [List.length_take]; omega⟩
  · intro rows provider sep depth
    exact ⟨uniqKeysOf_nodup rows provider sep depth,
      fun k => uniqKeysOf_mem rows provider sep depth k, rfl⟩
  · intro t htne hfree
    rw [emitObj, keyOf]
    have hsplit : splitChar '\x01'
        (String.mk (List.intercalate ['\x01'] (t.map String.data))).data =
        t.map String.data := by
      refine splitChar_intercalate '\x01' (t.map String.data) (by simpa using htne) ?_
      intro p hp
      obtain ⟨s, hs, rfl⟩ := List.mem_map.mp hp
      exact hfree s hs
    rw [hsplit, List.map_map]
    have hid : (fun cs => (⟨cs⟩ : String)) ∘ String.data = id := by
      funext s
      cases s
      rfl
    rw [hid, List.map_id]
  · intro rows provider sep depth t htne hfree hrows
    rw [uniqKeysOf_mem]
    constructor
    · rintro ⟨raw, hraw, u, hpu, hku⟩
      have hu := processCategoryRow_some raw provider sep depth u hpu
      have hufree : ∀ part ∈ u, '\x01' ∉ part.data := hrows raw hraw u hpu
      have : u = t := keyOf_inj u t hu.2.1 htne hufree hfree hku
      exact ⟨raw, hraw, this ▸ hpu⟩
    · rintro ⟨raw, hraw, hpt⟩
      exact ⟨raw, hraw, t, hpt, rfl⟩

/-- Witness for `category_extractor_amended`: the dv first-occurrence removal
clause applied to a concrete category path. -/
theorem category_extractor_amended_witness :
    preprocessForProvider ⟨['a', 'b'] ++ '/' :: ['c', 'd']⟩ "dv" '/' =
      ⟨['a', 'b'] ++ ['c', 'd']⟩ :=
  category_extractor_amended.1 ['a', 'b'] ['c', 'd'] '/' (by decide)

/-! ### Date normalization and IAB-scored ingestion
(generateVisionJson.js `normDate`, `ingestIabScored`) -/

/-- `String(mo).padStart(2, '0')` for a 1-2 digit group. -/
def pad2 (l : List Char) : String :=
  if l.length = 1 then ⟨'0' :: l⟩ else ⟨l⟩

/-- The date regex `year(4 digits), separator slash or dash, month(1-2
digits), separator, day(1-2 digits)` with zero-padded rewriting to
`YYYY-MM-DD`. -/
def ymd? (l : List Char) : Option String :=
  if (l.takeWhile Char.isDigit).length = 4 then
    match l.dropWhile Char.isDigit with
    | s1 :: r2 =>
      if s1 = '/' ∨ s1 = '-' then
        if 1 ≤ (r2.takeWhile Char.isDigit).length ∧ (r2.takeWhile Char.isDigit).length ≤ 2 then
          match r2.dropWhile Char.isDigit with
          | s2 :: r4 =>
            if s2 = '/' ∨ s2 = '-' then
              if 1 ≤ (r4.takeWhile Char.isDigit).length ∧
                  (r4.takeWhile Char.isDigit).length ≤ 2 ∧
                  r4.dropWhile Char.isDigit = [] then
                some ((⟨l.takeWhile Char.isDigit⟩ : String) ++ "-" ++
                  pad2 (r2.takeWhile Char.isDigit) ++ "-" ++ pad2 (r4.takeWhile Char.isDigit))
              else none
            else none
          | [] => none
        else none
      else none
    | [] => none
  else none

/-- The date regex `month(1-2 digits), separator slash or dash, day(1-2
digits), separator, year(4 digits)` (mm/dd/yyyy) with rewriting to
`YYYY-MM-DD`. -/
def mdy? (l : List Char) : Option String :=
  if 1 ≤ (l.takeWhile Char.isDigit).length ∧ (l.takeWhile Char.isDigit).length ≤ 2 then
    match l.dropWhile Char.isDigit with
    | s1 :: r2 =>
      if s1 = '/' ∨ s1 = '-' then
        if 1 ≤ (r2.takeWhile Char.isDigit).length ∧ (r2.takeWhile Char.isDigit).length ≤ 2 then
          match r2.dropWhile Char.isDigit with
          | s2 :: r4 =>
            if s2 = '/' ∨ s2 = '-' then
              if (r4.takeWhile Char.isDigit).length = 4 ∧ r4.dropWhile Char.isDigit = [] then
                some ((⟨r4.takeWhile Char.isDigit⟩ : String) ++ "-" ++
                  pad2 (l.takeWhile Char.isDigit) ++ "-" ++ pad2 (r2.takeWhile Char.isDigit))
              else none
            else none
          | [] => none
        else none
      else none
    | [] => none
  else none

/-- generateVisionJson.js `normDate`: accept year-month-day and
month-day-year forms with slash or dash separators, rewrite to zero-padded
`YYYY-MM-DD`, pass anything else through trimmed but unchanged. -/
def normDate (s : String) : String :=
  match ymd? (trimStr s).data with
  | some r => r
  | none =>
    match mdy? (trimStr s).data with
    | some r => r
    | none => trimStr s

/-- One parsed line of categoryscored.jsonl: `insertionOrder`, `date`,
`iabId`, `iabcategoryName` and the numeric value of `iabscore` after
`parseNumber`. -/
structure IabRec where
  insertionOrder : String
  date : String
  iabId : String
  name : String
  iabscore : ℚ
deriving DecidableEq

/-- One accumulator cell: taxonomy name and running score sum. -/
structure NV where
  name : String
  val : ℚ
deriving DecidableEq

/-- State of `ingestIabScored`: `dailyByPid` (product → date → taxonomy-id →
cell) and `totalsByPid` (product → taxonomy-id → cell). -/
structure IabState where
  daily : List (String × List (String × List (String × NV)))
  totals : List (String × List (String × NV))
deriving DecidableEq

def IabState.empty : IabState := ⟨[], []⟩

/-- One record of the `ingestIabScored` loop (generateVisionJson.js lines
493-525): skip on empty product id, empty normalized date, empty taxonomy id
or zero score; otherwise add the score into both cells and let a non-empty
name overwrite the stored one (`cur.name = name || cur.name`). -/
def ingestIabStep (s : IabState) (r : IabRec) : IabState :=
  if productIdFromInsertionOrder r.insertionOrder = "" then s
  else if normDate r.date = "" ∨ r.iabId = "" ∨ r.iabscore = 0 then s
  else
    { daily := updA s.daily (productIdFromInsertionOrder r.insertionOrder) []
        (fun byDate => updA byDate (normDate r.date) []
          (fun catMap => updA catMap r.iabId ⟨r.name, 0⟩
            (fun cur => ⟨if r.name = "" then cur.name else r.name,
              cur.val + r.iabscore⟩)))
      totals := updA s.totals (productIdFromInsertionOrder r.insertionOrder) []
        (fun totMap => updA totMap r.iabId ⟨r.name, 0⟩
          (fun cur => ⟨if r.name = "" then cur.name else r.name,
            cur.val + r.iabscore⟩)) }

/-- The daily cell of key (product, date, taxonomy-id). -/
def dailyNV (st : IabState) (pid d id : String) : NV :=
  lookupA (lookupA (lookupA st.daily pid []) d []) id ⟨"", 0⟩

/-- The totals cell of key (product, taxonomy-id). -/
def totalsNV (st : IabState) (pid id : String) : NV :=
  lookupA (lookupA st.totals pid []) id ⟨"", 0⟩

/-- A record contributes to the daily cell (pid, d, id): it passes the guards
and its keys match. -/
def matchDaily (r : IabRec) (pid d id : String) : Prop :=
  productIdFromInsertionOrder r.insertionOrder = pid ∧ pid ≠ "" ∧
    normDate r.date = d ∧ d ≠ "" ∧ r.iabId = id ∧ id ≠ "" ∧ r.iabscore ≠ 0

instance (r : IabRec) (pid d id : String) : Decidable (matchDaily r pid d id) := by
  unfold matchDaily
  infer_instance

/-- A record contributes to the totals cell (pid, id). -/
def matchTotals (r : IabRec) (pid id : String) : Prop :=
  productIdFromInsertionOrder r.insertionOrder = pid ∧ pid ≠ "" ∧
    normDate r.date ≠ "" ∧ r.iabId = id ∧ id ≠ "" ∧ r.iabscore ≠ 0

instance (r : IabRec) (pid id : String) : Decidable (matchTotals r pid id) := by
  unfold matchTotals
  infer_instance

/-- Specification-side score sum of the daily key. -/
def dailySumSpec (recs : List IabRec) (pid d id : String) : ℚ :=
  (recs.map (fun r => if matchDaily r pid d id then r.iabscore else 0)).sum

/-- Specification-side score sum of the totals key. -/
def totalsSumSpec (recs : List IabRec) (pid id : String) : ℚ :=
  (recs.map (fun r => if matchTotals r pid id then r.iabscore else 0)).sum

/-- Last non-empty name of a record list, starting from `init` (an empty
candidate name never overwrites). -/
def lastNameFold (rs : List IabRec) (init : String) : String :=
  rs.foldl (fun acc r => if r.name = "" then acc else r.name) init

theorem lookupA_nv_default (m : List (String × NV)) (k nm : String) (v : ℚ) :
    (fun cur : NV => (⟨if nm = "" then cur.name else nm, cur.val + v⟩ : NV))
        (lookupA m k ⟨nm, 0⟩) =
      (fun cur : NV => (⟨if nm = "" then cur.name else nm, cur.val + v⟩ : NV))
        (lookupA m k ⟨"", 0⟩) := by
  induction m with
  | nil =>
    by_cases hnm : nm = "" <;> simp [lookupA, hnm]
  | cons hd tl ih =>
    obtain ⟨k', nv⟩ := hd
    by_cases hk : k' = k <;> simp [lookupA, hk, ih]

theorem dailyNV_step (st : IabState) (r : IabRec) (pid d id : String) :
    dailyNV (ingestIabStep st r) pid d id =
      if matchDaily r pid d id then
        ⟨if r.name = "" then (dailyNV st pid d id).name else r.name,
         (dailyNV st pid d id).val + r.iabscore⟩
      else dailyNV st pid d id := by
  by_cases h1 : productIdFromInsertionOrder r.insertionOrder = ""
  · rw [ingestIabStep, if_pos h1,
      if_neg (fun hh : matchDaily r pid d id => hh.2.1 (by rw [← hh.1]; exact h1))]
  · by_cases h2 : normDate r.date = "" ∨ r.iabId = "" ∨ r.iabscore = 0
    · rw [ingestIabStep, if_neg h1, if_pos h2]
      rcases h2 with h2 | h2 | h2
      · rw [if_neg (fun hh : matchDaily r pid d id => hh.2.2.2.1 (by rw [← hh.2.2.1]; exact h2))]
      · rw [if_neg (fun hh : matchDaily r pid d id => hh.2.2.2.2.2.1 (by rw [← hh.2.2.2.2.1]; exact h2))]
      · rw [if_neg (fun hh : matchDaily r pid d id => hh.2.2.2.2.2.2 h2)]
    · push_neg at h2
      obtain ⟨h2a, h2b, h2c⟩ := h2
      have hdaily : (ingestIabStep st r).daily =
          updA st.daily (productIdFromInsertionOrder r.insertionOrder) []
            (fun byDate => updA byDate (normDate r.date) []
              (fun catMap => updA catMap r.iabId ⟨r.name, 0⟩
                (fun cur => ⟨if r.name = "" then cur.name else r.name,
                  cur.val + r.iabscore⟩))) := by
        rw [ingestIabStep, if_neg h1, if_neg (by push_neg; exact ⟨h2a, h2b, h2c⟩)]
      by_cases hp : productIdFromInsertionOrder r.insertionOrder = pid
      · by_cases hd : normDate r.date = d
        · by_cases hid : r.iabId = id
          · have hmatch : matchDaily r pid d id :=
              ⟨hp, by rw [← hp]; exact h1, hd, by rw [← hd]; exact h2a, hid,
               by rw [← hid]; exact h2b, h2c⟩
            rw [if_pos hmatch]
            unfold dailyNV
            rw [hdaily, hp, hd, hid, lookupA_updA_self, lookupA_updA_self,
              lookupA_updA_self]
            exact lookupA_nv_default _ id r.name r.iabscore
          · rw [if_neg (fun hh : matchDaily r pid d id => hid hh.2.2.2.2.1)]
            unfold dailyNV
            rw [hdaily, hp, hd, lookupA_updA_self, lookupA_updA_self,
              lookupA_updA_ne _ _ _ _ _ _ (fun hh => hid hh.symm)]
        · rw [if_neg (fun hh : matchDaily r pid d id => hd hh.2.2.1)]
          unfold dailyNV
          rw [hdaily, hp, lookupA_updA_self,
            lookupA_updA_ne _ _ _ _ _ _ (fun hh => hd hh.symm)]
      · rw [if_neg (fun hh : matchDaily r pid d id => hp hh.1)]
        unfold dailyNV
        rw [hdaily, lookupA_updA_ne _ _ _ _ _ _ (fun hh => hp hh.symm)]

theorem totalsNV_step (st : IabState) (r : IabRec) (pid id : String) :
    totalsNV (ingestIabStep st r) pid id =
      if matchTotals r pid id then
        ⟨if r.name = "" then (totalsNV st pid id).name else r.name,
         (totalsNV st pid id).val + r.iabscore⟩
      else totalsNV st pid id := by
  by_cases h1 : productIdFromInsertionOrder r.insertionOrder = ""
  · rw [ingestIabStep, if_pos h1,
      if_neg (fun hh : matchTotals r pid id => hh.2.1 (by rw [← hh.1]; exact h1))]
  · by_cases h2 : normDate r.date = "" ∨ r.iabId = "" ∨ r.iabscore = 0
    · rw [ingestIabStep, if_neg h1, if_pos h2]
      rcases h2 with h2 | h2 | h2
      · rw [if_neg (fun hh : matchTotals r pid id => hh.2.2.1 h2)]
      · rw [if_neg (fun hh : matchTotals r pid id => hh.2.2.2.2.1 (by rw [← hh.2.2.2.1]; exact h2))]
      · rw [if_neg (fun hh : matchTotals r pid id => hh.2.2.2.2.2 h2)]
    · push_neg at h2
      obtain ⟨h2a, h2b, h2c⟩ := h2
      have htot : (ingestIabStep st r).totals =
          updA st.totals (productIdFromInsertionOrder r.insertionOrder) []
            (fun totMap => updA totMap r.iabId ⟨r.name, 0⟩
              (fun cur => ⟨if r.name = "" then cur.name else r.name,
                cur.val + r.iabscore⟩)) := by
        rw [ingestIabStep, if_neg h1, if_neg (by push_neg; exact ⟨h2a, h2b, h2c⟩)]
      by_cases hp : productIdFromInsertionOrder r.insertionOrder = pid
      · by_cases hid : r.iabId = id
        · have hmatch : matchTotals r pid id :=
            ⟨hp, by rw [← hp]; exact h1, h2a, hid, by rw [← hid]; exact h2b, h2c⟩
          rw [if_pos hmatch]
          unfold totalsNV
          rw [htot, hp, hid, lookupA_updA_self, lookupA_updA_self]
          exact lookupA_nv_default _ id r.name r.iabscore
        · rw [if_neg (fun hh : matchTotals r pid id => hid hh.2.2.2.1)]
          unfold totalsNV
          rw [htot, hp, lookupA_updA_self,
            lookupA_updA_ne _ _ _ _ _ _ (fun hh => hid hh.symm)]
      · rw [if_neg (fun hh : matchTotals r pid id => hp hh.1)]
        unfold totalsNV
        rw [htot, lookupA_updA_ne _ _ _ _ _ _ (fun hh => hp hh.symm)]

theorem iab_fold_eval (recs : List IabRec) (st : IabState) (pid d id : String) :
    (dailyNV (recs.foldl ingestIabStep st) pid d id).val =
      (dailyNV st pid d id).val + dailySumSpec recs pid d id ∧
    (dailyNV (recs.foldl ingestIabStep st) pid d id).name =
      lastNameFold (recs.filter (fun r => decide (matchDaily r pid d id)))
        ((dailyNV st pid d id).name) ∧
    (totalsNV (recs.foldl ingestIabStep st) pid id).val =
      (totalsNV st pid id).val + totalsSumSpec recs pid id ∧
    (totalsNV (recs.foldl ingestIabStep st) pid id).name =
      lastNameFold (recs.filter (fun r => decide (matchTotals r pid id)))
        ((totalsNV st pid id).name) := by
  induction recs generalizing st with
  | nil =>
    refine ⟨by simp [dailySumSpec], by simp [lastNameFold], by simp [totalsSumSpec],
      by simp [lastNameFold]⟩
  | cons r rest ih =>
    obtain ⟨ih1, ih2, ih3, ih4⟩ := ih (ingestIabStep st r)
    rw [List.foldl_cons]
    have hsum1 : dailySumSpec (r :: rest) pid d id =
        (if matchDaily r pid d id then r.iabscore else 0) + dailySumSpec rest pid d id := by
      simp [dailySumSpec]
    have hsum2 : totalsSumSpec (r :: rest) pid id =
        (if matchTotals r pid id then r.iabscore else 0) + totalsSumSpec rest pid id := by
      simp [totalsSumSpec]
    refine ⟨?_, ?_, ?_, ?_⟩
    · rw [ih1, dailyNV_step, hsum1]
      by_cases hm : matchDaily r pid d id
      · rw [if_pos hm, if_pos hm]
        simp only []
        ring
      · rw [if_neg hm, if_neg hm]
        ring
    · rw [ih2, dailyNV_step]
      by_cases hm : matchDaily r pid d id
      · rw [if_pos hm, List.filter_cons_of_pos (by simpa using hm)]
        simp only [lastNameFold, List.foldl_cons]
      · rw [if_neg hm, List.filter_cons_of_neg (by simpa using hm)]
    · rw [ih3, totalsNV_step, hsum2]
      by_cases hm : matchTotals r pid id
      · rw [if_pos hm, if_pos hm]
        simp only []
        ring
      · rw [if_neg hm, if_neg hm]
        ring
    · rw [ih4, totalsNV_step]
      by_cases hm : matchTotals r pid id
      · rw [if_pos hm, List.filter_cons_of_pos (by simpa using hm)]
        simp only [lastNameFold, List.foldl_cons]
      · rw [if_neg hm, List.filter_cons_of_neg (by simpa using hm)]

/-- Two scored records for key (P, 2024-01-01, X): the later one carries an
empty candidate name. -/
def exIabRecs : List IabRec :=
  [⟨"P_1", "2024-01-01", "X", "A", 1⟩, ⟨"P_1", "2024-01-01", "X", "", 1⟩]

theorem normDate_ex : normDate "2024-01-01" = "2024-01-01" := by decide

theorem matchTotals_ex1 : matchTotals ⟨"P_1", "2024-01-01", "X", "A", 1⟩ "P" "X" := by
  refine ⟨pid_P1, by decide, ?_, rfl, by decide, one_ne_zero⟩
  rw [show (⟨"P_1", "2024-01-01", "X", "A", 1⟩ : IabRec).date = "2024-01-01" from rfl,
    normDate_ex]
  decide

theorem matchTotals_ex2 : matchTotals ⟨"P_1", "2024-01-01", "X", "", 1⟩ "P" "X" := by
  refine ⟨pid_P1, by decide, ?_, rfl, by decide, one_ne_zero⟩
  rw [show (⟨"P_1", "2024-01-01", "X", "", 1⟩ : IabRec).date = "2024-01-01" from rfl,
    normDate_ex]
  decide

/-- C8 counterexample: for the totals key (P, X) the record seen most
recently carries the empty name, yet the stored taxonomy name stays `A`
(`name || cur.name` never lets an empty name overwrite), so the stored name
is not the most recently seen candidate name; the score still sums to 2. -/
theorem iab_name_empty_not_overwriting :
    (totalsNV (exIabRecs.foldl ingestIabStep IabState.empty) "P" "X").name = "A" ∧
    (exIabRecs.map IabRec.name).getLast? = some "" ∧
    ("A" : String) ≠ "" ∧
    (totalsNV (exIabRecs.foldl ingestIabStep IabState.empty) "P" "X").val = 2 := by
  obtain ⟨_, _, h3, h4⟩ := iab_fold_eval exIabRecs IabState.empty "P" "2024-01-01" "X"
  refine ⟨?_, by decide, by decide, ?_⟩
  · rw [h4, show (totalsNV IabState.empty "P" "X").name = "" from rfl]
    rw [show exIabRecs = [⟨"P_1", "2024-01-01", "X", "A", 1⟩,
      ⟨"P_1", "2024-01-01", "X", "", 1⟩] from rfl]
    rw [List.filter_cons_of_pos (by simpa using matchTotals_ex1),
      List.filter_cons_of_pos (by simpa using matchTotals_ex2)]
    simp [lastNameFold]
  · rw [h3, show (totalsNV IabState.empty "P" "X").val = 0 from rfl, zero_add]
    rw [show exIabRecs = [⟨"P_1", "2024-01-01", "X", "A", 1⟩,
      ⟨"P_1", "2024-01-01", "X", "", 1⟩] from rfl]
    simp only [totalsSumSpec, List.map_cons, List.map_nil, List.sum_cons, List.sum_nil,
      if_pos matchTotals_ex1, if_pos matchTotals_ex2]
    norm_num

/-- C8 (amended): the IAB score aggregates of the Vision assembler are keyed
by (product, normalized date, taxonomy-id), with totals keyed by (product,
taxonomy-id); for each key the score is the additive sum of the matching
records' scores (never overwritten), and the stored taxonomy name is the most
recently seen non-empty candidate name for that key (empty names never
overwrite; empty when no matching record carried a name). -/
theorem iab_aggregation_amended (recs : List IabRec) (pid d id : String) :
    (dailyNV (recs.foldl ingestIabStep IabState.empty) pid d id).val =
      dailySumSpec recs pid d id ∧
    (dailyNV (recs.foldl ingestIabStep IabState.empty) pid d id).name =
      lastNameFold (recs.filter (fun r => decide (matchDaily r pid d id))) "" ∧
    (totalsNV (recs.foldl ingestIabStep IabState.empty) pid id).val =
      totalsSumSpec recs pid id ∧
    (totalsNV (recs.foldl ingestIabStep IabState.empty) pid id).name =
      lastNameFold (recs.filter (fun r => decide (matchTotals r pid id))) "" := by
  obtain ⟨h1, h2, h3, h4⟩ := iab_fold_eval recs IabState.empty pid d id
  refine ⟨?_, ?_, ?_, ?_⟩
  · rw [h1, show (dailyNV IabState.empty pid d id).val = 0 from rfl, zero_add]
  · rw [h2, show (dailyNV IabState.empty pid d id).name = "" from rfl]
  · rw [h3, show (totalsNV IabState.empty pid id).val = 0 from rfl, zero_add]
  · rw [h4, show (totalsNV IabState.empty pid id).name = "" from rfl]

/-! ### Engagement (unique.csv), key properties (categories.csv), age/IAB
inference row handling -/

/-- One per-day engagement object (generateVisionJson.js lines 359-373). -/
structure DayObj where
  analytic_engagements : ℚ
  analytic_engagementsPercent : ℚ
  analytic_date : String
  analytic_viewability : ℚ
  analytic_uniqueUsers : ℚ
  analytic_views : ℚ
  analytic_views25 : ℚ
  analytic_views50 : ℚ
  analytic_views75 : ℚ
  analytic_vtr : ℚ
  analytic_ctr : ℚ
  analytic_impressions : ℚ
  analytic_clicks : ℚ
deriving DecidableEq

/-- Raw per-product engagement totals (generateVisionJson.js lines 378-389). -/
structure UniqueTot where
  impressions : ℚ
  clicks : ℚ
  viewable : ℚ
  starts : ℚ
  v25 : ℚ
  v50 : ℚ
  v75 : ℚ
  v100 : ℚ
deriving DecidableEq

def zeroTot : UniqueTot := ⟨0, 0, 0, 0, 0, 0, 0, 0⟩

/-- State of the `ingestUnique` scan. -/
structure UniqueState where
  perDay : List (String × List DayObj)
  totals : List (String × UniqueTot)
deriving DecidableEq

def UniqueState.empty : UniqueState := ⟨[], []⟩

/-- One data row of the `ingestUnique` loop (generateVisionJson.js lines
345-390), default column mapping insertionOrder=0, date=1, impressions=2,
clicks=3, viewableImps=4, starts=6, v25=7, v50=8, v75=9, v100=10.  Only an
empty product id skips the row; every numeric field is coerced with
`parseNumber` (malformed becomes 0). -/
def ingestUniqueRow (s : UniqueState) (cols : List String) : UniqueState :=
  if productIdFromInsertionOrder (colD cols 0) = "" then s
  else
    { perDay := updA s.perDay (productIdFromInsertionOrder (colD cols 0)) []
        (fun arr => arr ++ [⟨0, 0, normDate (colD cols 1),
          pct4 (parseNumber (colD cols 4)) (parseNumber (colD cols 2)), 0,
          parseNumber (colD cols 10), parseNumber (colD cols 7),
          parseNumber (colD cols 8), parseNumber (colD cols 9),
          pct4 (parseNumber (colD cols 10)) (parseNumber (colD cols 6)),
          pct4 (parseNumber (colD cols 3)) (parseNumber (colD cols 2)),
          parseNumber (colD cols 2), parseNumber (colD cols 3)⟩])
      totals := updA s.totals (productIdFromInsertionOrder (colD cols 0)) zeroTot
        (fun t => ⟨t.impressions + parseNumber (colD cols 2),
          t.clicks + parseNumber (colD cols 3),
          t.viewable + parseNumber (colD cols 4),
          t.starts + parseNumber (colD cols 6),
          t.v25 + parseNumber (colD cols 7),
          t.v50 + parseNumber (colD cols 8),
          t.v75 + parseNumber (colD cols 9),
          t.v100 + parseNumber (colD cols 10)⟩) }

/-- Per-App/URL sums (generateVisionJson.js lines 463-469). -/
structure KeyProp where
  impressions : ℚ
  clicks : ℚ
  viewability : ℚ
deriving DecidableEq

/-- One data row of the `ingestKeyProps` loop (generateVisionJson.js lines
452-470), default mapping insertionOrder=0, appUrl=3, impressions=4,
clicks=5, viewableImps=6.  Rows with an empty product id or blank App/URL are
skipped; numeric fields are coerced with `parseNumber`. -/
def ingestKeyPropsRow (agg : List (String × List (String × KeyProp)))
    (cols : List String) : List (String × List (String × KeyProp)) :=
  if productIdFromInsertionOrder (colD cols 0) = "" then agg
  else if trimStr (colD cols 3) = "" then agg
  else
    updA agg (productIdFromInsertionOrder (colD cols 0)) []
      (fun m => updA m (trimStr (colD cols 3)) ⟨0, 0, 0⟩
        (fun c => ⟨c.impressions + parseNumber (colD cols 4),
          c.clicks + parseNumber (colD cols 5),
          c.viewability + parseNumber (colD cols 6)⟩))

/-- One data row of the inferAgeGender.js main loop (lines 210-233), default
mapping insertionOrder=0, date=1, gender=2, age=3, impressions=4.  A missing
age or impressions cell, or a non-finite impressions number, skips the row;
the parsed token is expanded and each share is added to the accumulator keyed
by (insertionOrder, date, gender, bin) - the source joins these components
with U+0001 into one string key. -/
def ingestAgeRow (agg : List ((String × String × String × String) × ℚ))
    (cols : List String) : List ((String × String × String × String) × ℚ) :=
  match cols.get? 3, cols.get? 4 with
  | some ageStr, some impressionsRaw =>
    match jsNumber? (trimStr (stripCommas impressionsRaw)) with
    | none => agg
    | some n =>
      (expandAge (parseAgeToken ageStr) n).foldl (fun a p =>
        match p with
        | .plus65 imp =>
          updA a (colD cols 0, colD cols 1, colD cols 2, "+65") 0 (fun v => v + imp)
        | .year y imp =>
          updA a (colD cols 0, colD cols 1, colD cols 2, yearToBin y) 0
            (fun v => v + imp)) agg
  | _, _ => agg

/-- One dictionary candidate `{id, name, score}` (score pre-parsed with
`Number`). -/
structure Cand where
  id : String
  name : String
  score : ℚ
deriving DecidableEq

/-- `m.get(k)` on a JavaScript `Map`, `undefined` as `none`. -/
def lookupA? {κ α : Type} [DecidableEq κ] (m : List (κ × α)) (k : κ) : Option α :=
  match m with
  | [] => none
  | (k', v) :: rest => if k' = k then some v else lookupA? rest k

/-- One data row of the inferIabScoring.js main loop (lines 180-211), default
mapping insertionOrder=0, date=1, category=2, impressions=4.  A missing
category or impressions cell, a non-finite impressions number, an empty
tier-part list, or a dictionary miss (or empty candidate list) skips the row;
each candidate with score at or above `minscore` adds
`impressions * score` into the accumulator keyed by
(insertionOrder, date, iabId, iabName). -/
def ingestScoringRow (provider : String) (dict : List (String × List Cand))
    (minscore : ℚ) (splitval : Char)
    (agg : List ((String × String × String × String) × ℚ)) (cols : List String) :
    List ((String × String × String × String) × ℚ) :=
  match cols.get? 2, cols.get? 4 with
  | some catRaw, some impressionsRaw =>
    match jsNumber? (trimStr (stripCommas impressionsRaw)) with
    | none => agg
    | some impressions =>
      match partsOf catRaw provider splitval with
      | [] => agg
      | tier1 :: _ =>
        match lookupA? dict (lowerStr tier1) with
        | none => agg
        | some cands =>
          if cands.isEmpty then agg
          else
            cands.foldl (fun a c =>
              if minscore ≤ c.score then
                updA a (colD cols 0, colD cols 1, c.id, c.name) 0
                  (fun v => v + impressions * c.score)
              else a) agg
  | _, _ => agg

/-- The JSONL reading loops of `ingestDemo` / `ingestIabScored`
(`try JSON.parse catch continue`): a line that fails to parse (`none`)
contributes nothing. -/
def foldJsonLines {R σ : Type} (step : σ → R → σ) (s : σ) (lines : List (Option R)) : σ :=
  lines.foldl (fun acc o => match o with | none => acc | some r => step acc r) s

theorem foldl_skip {σ α : Type} (step : σ → α → σ) (s : σ) (pre post : List α)
    (x : α) (h : ∀ t, step t x = t) :
    (pre ++ x :: post).foldl step s = (pre ++ post).foldl step s := by
  rw [List.foldl_append, List.foldl_append, List.foldl_cons, h]

theorem parseNumber_of_jsNone (x : String)
    (h : jsNumber? (trimStr (stripCommas x)) = none) : parseNumber x = 0 := by
  rw [parseNumber, h]

theorem parseNumber_5 : parseNumber "5" = 5 := by
  have h := parseNumber_intLit "5" ['5'] 5 (by decide) (by decide)
  simpa using h

theorem parseNumber_7 : parseNumber "7" = 7 := by
  have h := parseNumber_intLit "7" ['7'] 7 (by decide) (by decide)
  simpa using h

/-- C9 counterexample: a malformed numeric field does NOT make the engagement
(unique.csv) or key-properties pass skip the row as a whole.  A unique.csv
row with impressions `abc` (which `Number` maps to NaN) still contributes its
5 clicks to the per-product totals, and a categories.csv row with impressions
`xyz` still contributes its 7 clicks and 3 viewable impressions to the
App/URL aggregate. -/
theorem unique_malformed_numeric_not_skipped :
    (lookupA (ingestUniqueRow UniqueState.empty
        ["A_x", "2024-01-01", "abc", "5", "0", "u", "0", "0", "0", "0", "0"]).totals
      "A" zeroTot).clicks = 5 ∧
    jsNumber? (trimStr (stripCommas "abc")) = none ∧
    lookupA (lookupA (ingestKeyPropsRow []
        ["B_y", "2024-01-01", "cat", "app.com", "xyz", "7", "3"]) "B" [])
      "app.com" ⟨0, 0, 0⟩ = (⟨0, 7, 3⟩ : KeyProp) ∧
    jsNumber? (trimStr (stripCommas "xyz")) = none := by
  have pidA : productIdFromInsertionOrder "A_x" = "A" := by decide
  have pidB : productIdFromInsertionOrder "B_y" = "B" := by decide
  have pabc : parseNumber "abc" = 0 := parseNumber_of_jsNone "abc" (by decide)
  have pxyz : parseNumber "xyz" = 0 := parseNumber_of_jsNone "xyz" (by decide)
  have tapp : trimStr "app.com" = "app.com" := by decide
  refine ⟨?_, by decide, ?_, by decide⟩
  · simp [ingestUniqueRow, UniqueState.empty, colD, pidA, updA, lookupA, zeroTot, pabc,
      parseNumber_5]
  · simp [ingestKeyPropsRow, colD, pidB, tapp, updA, lookupA, pxyz, parseNumber_7,
      parseNumber_3]

/-- C9 (amended): in the device pass a row whose impressions field is
malformed (NaN) is skipped as a whole; in the age-inference pass a row with a
malformed impressions field or an unmapped age token is skipped as a whole;
in the IAB-scoring pass a row with a malformed impressions field or a
dictionary miss on its first tier is skipped as a whole; in the demo pass a
record whose impressions parse to 0 (as every malformed one does) is skipped
as a whole; and in both JSONL passes an unparseable line is skipped as a
whole - in every case the handling of all other rows is unaffected.  (In the
engagement and key-properties passes, by contrast, malformed numeric fields
are coerced to 0 and the row's remaining fields still contribute.) -/
theorem row_skip_amended :
    (∀ (s : DevState) (pre post : List (List String)) (cols : List String),
      jsNumber? (trimStr (stripCommas (colD cols 3))) = none →
      (pre ++ cols :: post).foldl ingestDevicesStep s =
        (pre ++ post).foldl ingestDevicesStep s) ∧
    (∀ (agg : List ((String × String × String × String) × ℚ))
      (pre post : List (List String)) (cols : List String),
      (∀ x ∈ cols.get? 4, jsNumber? (trimStr (stripCommas x)) = none) →
      (pre ++ cols :: post).foldl ingestAgeRow agg =
        (pre ++ post).foldl ingestAgeRow agg) ∧
    (∀ (agg : List ((String × String × String × String) × ℚ))
      (pre post : List (List String)) (cols : List String),
      (∀ x ∈ cols.get? 3, parseAgeToken x = AgeToken.unknown) →
      (pre ++ cols :: post).foldl ingestAgeRow agg =
        (pre ++ post).foldl ingestAgeRow agg) ∧
    (∀ (provider : String) (dict : List (String × List Cand)) (minscore : ℚ)
      (splitval : Char) (agg : List ((String × String × String × String) × ℚ))
      (pre post : List (List String)) (cols : List String),
      (∀ x ∈ cols.get? 4, jsNumber? (trimStr (stripCommas x)) = none) →
      (pre ++ cols :: post).foldl (ingestScoringRow provider dict minscore splitval) agg =
        (pre ++ post).foldl (ingestScoringRow provider dict minscore splitval) agg) ∧
    (∀ (provider : String) (dict : List (String × List Cand)) (minscore : ℚ)
      (splitval : Char) (agg : List ((String × String × String × String) × ℚ))
      (pre post : List (List String)) (cols : List String),
      (∀ catRaw ∈ cols.get? 2, ∀ t1 ∈ (partsOf catRaw provider splitval).head?,
        lookupA? dict (lowerStr t1) = none) →
      (pre ++ cols :: post).foldl (ingestScoringRow provider dict minscore splitval) agg =
        (pre ++ post).foldl (ingestScoringRow provider dict minscore splitval) agg) ∧
    (∀ (st : DemoState) (pre post : List DemoRec) (r : DemoRec), r.impressions = 0 →
      (pre ++ r :: post).foldl ingestDemoStep st = (pre ++ post).foldl ingestDemoStep st) ∧
    (∀ (R σ : Type) (step : σ → R → σ) (s : σ) (pre post : List (Option R)),
      foldJsonLines step s (pre ++ none :: post) = foldJsonLines step s (pre ++ post)) := by
  refine ⟨?_, ?_, ?_, ?_, ?_, ?_, ?_⟩
  · intro s pre post cols h
    refine foldl_skip _ _ _ _ _ (fun t => ?_)
    have himps : parseNumber (colD cols 3) = 0 := parseNumber_of_jsNone _ h
    simp [ingestDevicesStep, himps]
  · intro agg pre post cols h
    refine foldl_skip _ _ _ _ _ (fun t => ?_)
    rcases h3 : cols.get? 3 with _ | age
    · simp only [ingestAgeRow, h3]
    · rcases h4 : cols.get? 4 with _ | x
      · simp only [ingestAgeRow, h3, h4]
      · have hx := h x h4
        simp only [ingestAgeRow, h3, h4, hx]
  · intro agg pre post cols h
    refine foldl_skip _ _ _ _ _ (fun t => ?_)
    rcases h3 : cols.get? 3 with _ | age
    · simp only [ingestAgeRow, h3]
    · rcases h4 : cols.get? 4 with _ | x
      · simp only [ingestAgeRow, h3, h4]
      · have hage := h age h3
        rcases hn : jsNumber? (trimStr (stripCommas x)) with _ | n
        · simp only [ingestAgeRow, h3, h4, hn]
        · simp only [ingestAgeRow, h3, h4, hn, hage, expandAge, List.foldl_nil]
  · intro provider dict minscore splitval agg pre post cols h
    refine foldl_skip _ _ _ _ _ (fun t => ?_)
    rcases h2 : cols.get? 2 with _ | cat
    · simp only [ingestScoringRow, h2]
    · rcases h4 : cols.get? 4 with _ | x
      · simp only [ingestScoringRow, h2, h4]
      · have hx := h x h4
        simp only [ingestScoringRow, h2, h4, hx]
  · intro provider dict minscore splitval agg pre post cols h
    refine foldl_skip _ _ _ _ _ (fun t => ?_)
    rcases h2 : cols.get? 2 with _ | cat
    · simp only [ingestScoringRow, h2]
    · rcases h4 : cols.get? 4 with _ | x
      · simp only [ingestScoringRow, h2, h4]
      · rcases hn : jsNumber? (trimStr (stripCommas x)) with _ | n
        · simp only [ingestScoringRow, h2, h4, hn]
        · rcases hp : partsOf cat provider splitval with _ | ⟨t1, rest⟩
          · simp only [ingestScoringRow, h2, h4, hn, hp]
          · have hl := h cat h2 t1 (by rw [hp]; rfl)
            simp only [ingestScoringRow, h2, h4, hn, hp, hl]
  · intro st pre post r h
    refine foldl_skip _ _ _ _ _ (fun t => ?_)
    by_cases hp : productIdFromInsertionOrder r.insertionOrder = "" <;>
      simp [ingestDemoStep, hp, h]
  · intro R σ step s pre post
    rw [foldJsonLines, foldJsonLines]
    exact foldl_skip _ _ _ _ _ (fun t => rfl)

/-- Witness for `row_skip_amended`: its device clause applied to one device
row whose impressions field is the malformed string `abc`. -/
theorem row_skip_amended_witness :
    ([] ++ ["P_1", "2024-01-01", "Desktop", "abc"] :: []).foldl ingestDevicesStep
        DevState.empty =
      ([] ++ []).foldl ingestDevicesStep DevState.empty :=
  row_skip_amended.1 DevState.empty [] [] ["P_1", "2024-01-01", "Desktop", "abc"]
    (by decide)

/-- C10: the derived product key of an Insertion Order string with no
underscore is the whole string, the empty Insertion Order yields the empty
key, and a row or record with an empty product key is skipped unchanged by
all five Vision-assembler ingestion passes (devices, demo, engagement, key
properties, IAB-scored taxonomy), so it produces no output document. -/
theorem product_key_and_empty_skip :
    (∀ s : String, '_' ∉ s.data → productIdFromInsertionOrder s = s) ∧
    productIdFromInsertionOrder "" = "" ∧
    (∀ (st : DevState) (cols : List String),
      productIdFromInsertionOrder (colD cols 0) = "" → ingestDevicesStep st cols = st) ∧
    (∀ (st : DemoState) (r : DemoRec),
      productIdFromInsertionOrder r.insertionOrder = "" → ingestDemoStep st r = st) ∧
    (∀ (st : UniqueState) (cols : List String),
      productIdFromInsertionOrder (colD cols 0) = "" → ingestUniqueRow st cols = st) ∧
    (∀ (agg : List (String × List (String × KeyProp))) (cols : List String),
      productIdFromInsertionOrder (colD cols 0) = "" → ingestKeyPropsRow agg cols = agg) ∧
    (∀ (st : IabState) (r : IabRec),
      productIdFromInsertionOrder r.insertionOrder = "" → ingestIabStep st r = st) := by
  refine ⟨?_, rfl, ?_, ?_, ?_, ?_, ?_⟩
  · intro s h
    have htake : ∀ l : List Char, '_' ∉ l → l.takeWhile (fun c => c ≠ '_') = l := by
      intro l
      induction l with
      | nil => intro _; rfl
      | cons x rest ih =>
        intro hl
        rw [List.takeWhile_cons]
        rw [if_pos (by simp; exact fun he => hl (by rw [he]; exact List.mem_cons_self _ _))]
        rw [ih (fun hm => hl (List.mem_cons_of_mem x hm))]
    rw [productIdFromInsertionOrder, htake s.data h]
  · intro st cols h
    simp [ingestDevicesStep, h]
  · intro st r h
    rw [ingestDemoStep, if_pos h]
  · intro st cols h
    rw [ingestUniqueRow, if_pos h]
  · intro agg cols h
    rw [ingestKeyPropsRow, if_pos h]
  · intro st r h
    rw [ingestIabStep, if_pos h]

/-- Witness for `product_key_and_empty_skip`: the no-underscore clause at a
concrete Insertion Order and the device-pass skip clause at a row whose
Insertion Order is empty. -/
theorem product_key_and_empty_skip_witness :
    productIdFromInsertionOrder "CAMPAIGN42" = "CAMPAIGN42" ∧
    ingestDevicesStep DevState.empty ["", "2024-01-01", "Desktop", "5"] = DevState.empty :=
  ⟨product_key_and_empty_skip.1 "CAMPAIGN42" (by decide),
   product_key_and_empty_skip.2.2.1 DevState.empty ["", "2024-01-01", "Desktop", "5"]
     (by decide)⟩

end Vision
